import Mathlib

/-!
Verification development for the Ripple content-republishing engine.

The Go sources are shallowly embedded: Go maps become association lists
with overwrite-on-insert semantics, Go errors become `Option String`
(`none` = nil error), fallible calls returning `(T, error)` become
`Except String T`, and the gorm-backed job/platform store becomes an
explicit `DBState` threaded through the manager operations.  Network,
file-system and git effects of the platform adapters are abstracted into
per-stage oracles; everything the manager and the converters compute is
embedded exactly.
-/

namespace Ripple

/-! ### Go map semantics over association lists -/

/-- Lookup in a Go `map[string]V`: first binding wins (keys are kept unique). -/
def mapGet? {α : Type} (m : List (String × α)) (k : String) : Option α :=
  (m.find? (fun kv => kv.1 == k)).map (fun kv => kv.2)

/-- Go `m[k]` read for `map[string]string`: missing keys read as `""`. -/
def goGet (m : List (String × String)) (k : String) : String :=
  (mapGet? m k).getD ""

/-- Go `m[k] = v` assignment: overwrite the existing binding, else append. -/
def mapSet {α : Type} (m : List (String × α)) (k : String) (v : α) : List (String × α) :=
  if m.any (fun kv => kv.1 == k) then
    m.map (fun kv => if kv.1 == k then (k, v) else kv)
  else
    m ++ [(k, v)]

theorem find?_overwrite_self {α : Type} (m : List (String × α)) (k : String) (v : α)
    (h : m.any (fun kv => kv.1 == k) = true) :
    (m.map (fun kv => if kv.1 == k then (k, v) else kv)).find?
      (fun kv => kv.1 == k) = some (k, v) := by
  induction m with
  | nil => simp at h
  | cons kv m ih =>
    by_cases hk : kv.1 = k
    · simp [List.find?, hk]
    · have hk' : (kv.1 == k) = false := by simpa using hk
      have hm : m.any (fun kv => kv.1 == k) = true := by
        simpa [List.any_cons, hk'] using h
      simpa [List.find?, hk'] using ih hm

theorem find?_overwrite_ne {α : Type} (m : List (String × α)) (k q : String) (v : α)
    (h : q ≠ k) :
    (m.map (fun kv => if kv.1 == k then (k, v) else kv)).find? (fun kv => kv.1 == q)
      = m.find? (fun kv => kv.1 == q) := by
  induction m with
  | nil => simp
  | cons kv m ih =>
    by_cases hk : kv.1 = k
    · have hkb : (kv.1 == k) = true := by simp [hk]
      have hkq : (k == q) = false := by simp [Ne.symm h]
      have hq : (kv.1 == q) = false := by simp [hk, Ne.symm h]
      simp only [List.map_cons, List.find?_cons, hkb, if_true, hkq, hq]
      exact ih
    · have hk' : (kv.1 == k) = false := by simp [hk]
      by_cases hq : kv.1 = q
      · have hqb : (kv.1 == q) = true := by simp [hq]
        simp only [List.map_cons, List.find?_cons, hk', Bool.false_eq_true, if_false, hqb]
      · have hq' : (kv.1 == q) = false := by simp [hq]
        simp only [List.map_cons, List.find?_cons, hk', Bool.false_eq_true, if_false, hq']
        exact ih

theorem find?_eq_none_of_any_false {α : Type} (m : List (String × α)) (k : String)
    (h : m.any (fun kv => kv.1 == k) = false) :
    m.find? (fun kv => kv.1 == k) = none := by
  induction m with
  | nil => simp
  | cons kv m ih =>
    have hk : (kv.1 == k) = false := by
      cases hkk : (kv.1 == k) with
      | true => simp [List.any_cons, hkk] at h
      | false => rfl
    have hm : m.any (fun kv => kv.1 == k) = false := by
      simpa [List.any_cons, hk] using h
    simp [List.find?, hk, ih hm]

theorem find?_append_single {α : Type} (m : List (String × α)) (k : String) (v : α)
    (h : m.any (fun kv => kv.1 == k) = false) :
    (m ++ [(k, v)]).find? (fun kv => kv.1 == k) = some (k, v) := by
  induction m with
  | nil => simp [List.find?]
  | cons kv m ih =>
    have hk : (kv.1 == k) = false := by
      cases hkk : (kv.1 == k) with
      | true => simp [List.any_cons, hkk] at h
      | false => rfl
    have hm : m.any (fun kv => kv.1 == k) = false := by
      simpa [List.any_cons, hk] using h
    simpa [List.find?, hk] using ih hm

theorem find?_append_single_ne {α : Type} (m : List (String × α)) (k q : String) (v : α)
    (h : q ≠ k) :
    (m ++ [(k, v)]).find? (fun kv => kv.1 == q) = m.find? (fun kv => kv.1 == q) := by
  induction m with
  | nil =>
    have hkq : (k == q) = false := by simp [Ne.symm h]
    simp [List.find?, hkq]
  | cons kv m ih =>
    by_cases hq : kv.1 = q
    · have hqb : (kv.1 == q) = true := by simp [hq]
      simp only [List.cons_append, List.find?_cons, hqb]
    · have hq' : (kv.1 == q) = false := by simp [hq]
      simp only [List.cons_append, List.find?_cons, hq']
      exact ih

theorem mapGet?_mapSet_self {α : Type} (m : List (String × α)) (k : String) (v : α) :
    mapGet? (mapSet m k v) k = some v := by
  unfold mapSet mapGet?
  by_cases hmem : m.any (fun kv => kv.1 == k) = true
  · rw [if_pos hmem, find?_overwrite_self m k v hmem]
    rfl
  · have hmem' : m.any (fun kv => kv.1 == k) = false :=
      Bool.eq_false_iff.mpr hmem
    rw [if_neg hmem, find?_append_single m k v hmem']
    rfl

theorem mapGet?_mapSet_ne {α : Type} (m : List (String × α)) (k q : String) (v : α)
    (h : q ≠ k) : mapGet? (mapSet m k v) q = mapGet? m q := by
  unfold mapSet mapGet?
  by_cases hmem : m.any (fun kv => kv.1 == k) = true
  · rw [if_pos hmem, find?_overwrite_ne m k q v h]
  · rw [if_neg hmem, find?_append_single_ne m k q v h]

/-! ### String helpers

Character-list implementations of the Go `strings` helpers the sources
use (`ReplaceAll`, `Split`, `Contains`, `ToLower`, `TrimSpace`,
`HasSuffix`/`TrimSuffix`).  The recursions are structural (a fuel argument
initialised to the input length, which every step strictly decreases), so
every theorem below can be checked by evaluation. -/

/-- Strip a literal prefix from a character list. -/
def stripPre : List Char → List Char → Option (List Char)
  | [], l => some l
  | _, [] => none
  | p :: ps, c :: cs => if c = p then stripPre ps cs else none

def replaceAllL (pat rep : List Char) : Nat → List Char → List Char
  | 0, l => l
  | _ + 1, [] => []
  | fuel + 1, c :: cs =>
    match stripPre pat (c :: cs) with
    | some rest => rep ++ replaceAllL pat rep fuel rest
    | none => c :: replaceAllL pat rep fuel cs

/-- Go `strings.ReplaceAll` (for a non-empty pattern): replace every
non-overlapping leftmost occurrence. -/
def replaceAllGo (s pat rep : String) : String :=
  String.mk (replaceAllL pat.data rep.data s.data.length s.data)

def splitOnL (sep : List Char) : Nat → List Char → List Char → List String
  | 0, acc, l => [String.mk (acc ++ l)]
  | _ + 1, acc, [] => [String.mk acc]
  | fuel + 1, acc, c :: cs =>
    match stripPre sep (c :: cs) with
    | some rest => String.mk acc :: splitOnL sep fuel [] rest
    | none => splitOnL sep fuel (acc ++ [c]) cs

/-- Go `strings.Split` (for a non-empty separator). -/
def splitOnGo (s sep : String) : List String :=
  splitOnL sep.data s.data.length [] s.data

/-- Whether `sub` occurs inside `s` (Go `strings.Contains`). -/
def hasInfixL (sub : List Char) : List Char → Bool
  | [] => sub.isEmpty
  | c :: cs => (stripPre sub (c :: cs)).isSome || hasInfixL sub cs

/-- Go `strings.TrimSpace`. -/
def trimGo (s : String) : String :=
  String.mk (((s.data.dropWhile Char.isWhitespace).reverse.dropWhile Char.isWhitespace).reverse)

/-- Go `strings.HasSuffix`. -/
def hasSuffixGo (s suf : String) : Bool :=
  (stripPre suf.data.reverse s.data.reverse).isSome

/-- Go `strings.TrimSuffix` with a suffix known to be present. -/
def dropSuffixGo (s : String) (n : Nat) : String :=
  String.mk (s.data.take (s.data.length - n))

/-! ### Notion block model

The Go converters consume `[]map[string]any` decoded from JSON.  Each
converter reads `block["type"]` (a string) and `block[blockType]` (a map);
when either is missing or of the wrong dynamic type the block is skipped.
`Block.malformed` stands for exactly those two failure cases.  From the
payload map the converters read `rich_text` (a list of spans), `language`,
the `file`/`external` url objects and the first caption element. -/

structure Annots where
  bold : Bool
  italic : Bool
  codeStyle : Bool
  strikethrough : Bool
  underline : Bool
deriving DecidableEq

/-- One Notion rich-text span as the converters read it: `plain_text`, the
optional `annotations` map and the optional `href`. -/
structure RichTextSpan where
  plainText : String
  annots : Option Annots
  href : Option String
deriving DecidableEq

structure BlockPayload where
  richText : List RichTextSpan
  language : Option String
  fileURL : Option String
  externalURL : Option String
  captionText : Option String
deriving DecidableEq

inductive Block where
  /-- `block["type"]` missing / not a string, or `block[blockType]` not a map. -/
  | malformed : Block
  | node (type_ : String) (payload : BlockPayload) : Block
deriving DecidableEq

/-- Payload with just rich text, the common case in examples. -/
def rtPayload (spans : List RichTextSpan) : BlockPayload :=
  { richText := spans, language := none, fileURL := none, externalURL := none,
    captionText := none }

/-- A plain unannotated span. -/
def plainSpan (t : String) : RichTextSpan :=
  { plainText := t, annots := none, href := none }

end Ripple

namespace Ripple.AlFolio

open Ripple

/-- Go `cleanText`: replace the non-breaking space with a regular space. -/
def cleanText (text : String) : String :=
  replaceAllGo text "\u00A0" " "

/-- Go `applyRichTextFormatting` (al_folio/convertor.go): with no
`annotations` map the text is returned untouched (no link applied);
otherwise bold, italic, code, strikethrough, underline are applied in
that order, then the link wraps the result. -/
def applyRichTextFormatting (text : String) (rt : RichTextSpan) : String :=
  match rt.annots with
  | none => text
  | some a =>
    let text := if a.bold then "**" ++ text ++ "**" else text
    let text := if a.italic then "*" ++ text ++ "*" else text
    let text := if a.codeStyle then "`" ++ text ++ "`" else text
    let text := if a.strikethrough then "~~" ++ text ++ "~~" else text
    let text := if a.underline then "*" ++ text ++ "*" else text
    match rt.href with
    | some href => if href != "" then "[" ++ text ++ "](" ++ href ++ ")" else text
    | none => text

/-- Go `extractRichTextToMarkdown`: concatenate the formatted spans. -/
def extractRichTextToMarkdown (payload : BlockPayload) : String :=
  payload.richText.foldl (fun acc rt => acc ++ applyRichTextFormatting rt.plainText rt) ""

/-- Go `convertImageBlockToMarkdown`: hosted-file url first, then external url. -/
def convertImageBlockToMarkdown (payload : BlockPayload) : String :=
  let imageURL :=
    match payload.fileURL with
    | some u => u
    | none => match payload.externalURL with
              | some u => u
              | none => ""
  if imageURL != "" then
    "<div class=\"row mt-3\">\n    <div class=\"col-sm mt-0 mb-0\">\n        \x7b% include figure.liquid loading=\"eager\" path=\"" ++ imageURL ++ "\" class=\"img-fluid rounded z-depth-1\" zoomable=true %\x7d\n    </div>\n</div>"
  else
    ""

/-- Result triple of `convertBlockToMarkdownWithCounter` together with the
counter value after the call (the Go function mutates `*numberedListCounter`). -/
structure ConvOut where
  content : String
  skip : Bool
  isNumberedList : Bool
  counter : Nat
deriving DecidableEq

/-- The non-numbered cases of the `convertBlockToMarkdownWithCounter`
switch (they all return `skip = false`, `isNumberedList = false` and leave
the counter alone, so only their content is computed here; the string
cases are pairwise disjoint, so splitting the numbered case off preserves
the switch semantics). -/
def mdBlockContent (type_ : String) (payload : BlockPayload) : String :=
  if type_ == "paragraph" then
    cleanText (extractRichTextToMarkdown payload)
  else if type_ == "heading_1" then
    let text := extractRichTextToMarkdown payload
    if text != "" then "# " ++ cleanText text else ""
  else if type_ == "heading_2" then
    let text := extractRichTextToMarkdown payload
    if text != "" then "## " ++ cleanText text else ""
  else if type_ == "heading_3" then
    let text := extractRichTextToMarkdown payload
    if text != "" then "### " ++ cleanText text else ""
  else if type_ == "bulleted_list_item" then
    let text := extractRichTextToMarkdown payload
    if text != "" then "- " ++ cleanText text else ""
  else if type_ == "quote" then
    let text := extractRichTextToMarkdown payload
    if text != "" then "> " ++ cleanText text else ""
  else if type_ == "code" then
    let text := extractRichTextToMarkdown payload
    let language := (payload.language).getD ""
    if text != "" then "```" ++ language ++ "\n" ++ cleanText text ++ "\n```" else ""
  else if type_ == "divider" then "---"
  else if type_ == "image" then convertImageBlockToMarkdown payload
  else if type_ == "column_list" then ""
  else if type_ == "column" then ""
  else cleanText (extractRichTextToMarkdown payload)

/-- Go `convertBlockToMarkdownWithCounter`: the switch over the block type.
Only a missing/ill-typed `type` or payload sets `skip`; every typed case
returns `skip = false`, and a case whose guard fails falls through to the
final `return content, false, false` with `content = ""`. -/
def convertBlockToMarkdownWithCounter (block : Block) (counter : Nat) : ConvOut :=
  match block with
  | .malformed => { content := "", skip := true, isNumberedList := false, counter := counter }
  | .node type_ payload =>
    if type_ == "numbered_list_item" then
      let text := extractRichTextToMarkdown payload
      if text != "" then
        { content := toString (counter + 1) ++ ". " ++ cleanText text, skip := false,
          isNumberedList := true, counter := counter + 1 }
      else
        { content := "", skip := false, isNumberedList := false, counter := counter }
    else
      { content := mdBlockContent type_ payload, skip := false,
        isNumberedList := false, counter := counter }

/-- The loop body of `convertNotionBlocksToMarkdown`: convert, drop skipped
blocks, reset the counter after any non-numbered processed block, and
collect the rendered strings. -/
def mdLoop : List Block → Nat → List String
  | [], _ => []
  | b :: bs, counter =>
    let out := convertBlockToMarkdownWithCounter b counter
    if out.skip then
      mdLoop bs out.counter
    else
      let counter' := if out.isNumberedList then out.counter else 0
      out.content :: mdLoop bs counter'

/-- Go `convertNotionBlocksToMarkdown` after JSON decoding: run the loop from
counter 0 and join with newlines. -/
def convertNotionBlocksToMarkdown (blocks : List Block) : String :=
  String.intercalate "\n" (mdLoop blocks 0)

/-- The counter as it stands after one loop iteration. -/
def mdCounterStep (b : Block) (counter : Nat) : Nat :=
  let out := convertBlockToMarkdownWithCounter b counter
  if out.skip then out.counter
  else if out.isNumberedList then out.counter else 0

theorem mdLoop_cons (b : Block) (bs : List Block) (counter : Nat) :
    mdLoop (b :: bs) counter =
      (if (convertBlockToMarkdownWithCounter b counter).skip then []
       else [(convertBlockToMarkdownWithCounter b counter).content]) ++
      mdLoop bs (mdCounterStep b counter) := by
  by_cases h : (convertBlockToMarkdownWithCounter b counter).skip <;>
    simp [mdLoop, mdCounterStep, h]

end Ripple.AlFolio

namespace Ripple.WeChatOfficial

open Ripple

/-- Go `escapeHTML` (wechat converter): sequential replacements. -/
def escapeHTML (text : String) : String :=
  replaceAllGo (replaceAllGo (replaceAllGo (replaceAllGo (replaceAllGo text
    "&" "&amp;") "<" "&lt;") ">" "&gt;") "\"" "&quot;") "\x27" "&#39;"

/-- Go `cleanWeChatText`: replace the non-breaking space with a regular space. -/
def cleanWeChatText (text : String) : String :=
  replaceAllGo text "\u00A0" " "

/-- The serif font-family list shared by the WeChat style strings. -/
def fontSerif : String :=
  "Optima-Regular, Optima, PingFangSC-light, PingFangTC-light, \x27PingFang SC\x27, Cambria, Cochin, Georgia, Times, \x27Times New Roman\x27, serif"

/-- The `<strong>` wrapper of the WeChat bold formatting. -/
def strongTag (s : String) : String :=
  "<strong style=\"text-align:left;color:#ff3502;line-height:1.5;font-family:" ++ fontSerif ++ ";font-size:16px\">" ++ s ++ "</strong>"

/-- The `<em>` wrapper of the WeChat italic formatting. -/
def emTag (s : String) : String :=
  "<em style=\"color: #3498db; font-style: italic;\">" ++ s ++ "</em>"

/-- The `<code>` wrapper of the WeChat inline-code formatting. -/
def codeTag (s : String) : String :=
  "<code style=\"text-align:left;color:#ff3502;line-height:1.5;font-family:Operator Mono, Consolas, Monaco, Menlo, monospace;font-size:90%;background:#f8f5ec;padding:3px 5px;border-radius:2px\">" ++ s ++ "</code>"

/-- The `<s>` wrapper of the WeChat strikethrough formatting. -/
def sTag (s : String) : String := "<s>" ++ s ++ "</s>"

/-- The `<u>` wrapper of the WeChat underline formatting. -/
def uTag (s : String) : String := "<u>" ++ s ++ "</u>"

/-- The `<a>` wrapper of the WeChat link formatting. -/
def aTag (href s : String) : String :=
  "<a href=\"" ++ href ++ "\" style=\"color: #3498db; text-decoration: none; border-bottom: 1px dotted #3498db;\">" ++ s ++ "</a>"

/-- Go `applyWeChatHTMLFormatting`: with no `annotations` map the escaped
text is returned, wrapped in a link when `href` is set; otherwise the text
is escaped and then bold, italic, code, strikethrough, underline wrap it in
that order, and finally the link wraps everything. -/
def applyWeChatHTMLFormatting (text : String) (rt : RichTextSpan) : String :=
  match rt.annots with
  | none =>
    match rt.href with
    | some href =>
      if href != "" then aTag href (escapeHTML text)
      else escapeHTML text
    | none => escapeHTML text
  | some a =>
    let text := escapeHTML text
    let text := if a.bold then strongTag text else text
    let text := if a.italic then emTag text else text
    let text := if a.codeStyle then codeTag text else text
    let text := if a.strikethrough then sTag text else text
    let text := if a.underline then uTag text else text
    match rt.href with
    | some href =>
      if href != "" then aTag href text
      else text
    | none => text

/-- Go `extractRichTextToWeChatHTML`. -/
def extractRichTextToWeChatHTML (payload : BlockPayload) : String :=
  payload.richText.foldl (fun acc rt => acc ++ applyWeChatHTMLFormatting rt.plainText rt) ""

/-- Go `extractPlainTextFromRichText` (no formatting, used for code blocks). -/
def extractPlainTextFromRichText (payload : BlockPayload) : String :=
  payload.richText.foldl (fun acc rt => acc ++ rt.plainText) ""

/-- The `<p style=...>` paragraph wrapper used for paragraphs, quotes inner
text, and unknown block types. -/
def paragraphTag (text : String) : String :=
  "<p style=\"text-align:left;color:#3f3f3f;line-height:1.6;font-family:" ++ fontSerif ++ ";font-size:16px;margin:10px 10px\">" ++ text ++ "</p>"

/-- Go `convertImageBlockToWeChatHTML`. -/
def convertImageBlockToWeChatHTML (payload : BlockPayload) : String :=
  let imageURL :=
    match payload.fileURL with
    | some u => u
    | none => match payload.externalURL with
              | some u => u
              | none => ""
  let alt := (payload.captionText).getD ""
  if imageURL != "" then
    "<p style=\"text-align:left;color:#3f3f3f;line-height:1.6;font-family:" ++ fontSerif ++ ";font-size:16px;margin:10px 10px\"><img style=\"text-align:left;color:#3f3f3f;line-height:1.5;font-family:" ++ fontSerif ++ ";font-size:16px;margin:20px auto;border-radius:4px;display:block;width:100%\" src=\"" ++ imageURL ++ "\" title=\"null\" alt=\"" ++ alt ++ "\"></p>"
  else ""

/-- Rendering of one code line inside the WeChat code snippet section. -/
def codeLineTag (line : String) : String :=
  "<code><span class=\"code-snippet_outer\">" ++ escapeHTML (if line == "" then " " else line) ++ "</span></code>"

/-- The non-numbered cases of the `convertBlockToWeChatHTMLWithCounter`
switch (they all return `skip = false`, `isNumberedList = false` and leave
the counter alone; the string cases are pairwise disjoint, so splitting
the numbered case off preserves the switch semantics). -/
def wcBlockContent (type_ : String) (payload : BlockPayload) : String :=
  if type_ == "paragraph" then
    let text := extractRichTextToWeChatHTML payload
    if text != "" then paragraphTag text else ""
  else if type_ == "heading_1" || type_ == "heading_2" then
    let text := extractRichTextToWeChatHTML payload
    if text != "" then
      "<h2 style=\"text-align:center;color:#3f3f3f;line-height:1.5;font-family:" ++ fontSerif ++ ";font-size:140%;margin:80px 10px 40px 10px;font-weight:normal\">" ++ text ++ "</h2>"
    else ""
  else if type_ == "heading_3" then
    let text := extractRichTextToWeChatHTML payload
    if text != "" then
      "<h3 style=\"text-align:left;color:#3f3f3f;line-height:1.5;font-family:" ++ fontSerif ++ ";font-size:120%;margin:40px 10px 20px 10px;font-weight:bold\">" ++ text ++ "</h3>"
    else ""
  else if type_ == "bulleted_list_item" then
    let text := extractRichTextToWeChatHTML payload
    if text != "" then
      "<p style=\"text-align:left;color:#3f3f3f;line-height:1.5;font-family:" ++ fontSerif ++ ";font-size:16px;margin:20px 10px;margin-left:0;padding-left:20px;list-style:circle\"><span style=\"text-align:left;color:#3f3f3f;line-height:1.5;font-family:" ++ fontSerif ++ ";font-size:16px;text-indent:-20px;display:block;margin:10px 10px\"><span style=\"margin-right: 10px;\">•</span>" ++ text ++ "</span></p>"
    else ""
  else if type_ == "quote" then
    let text := extractRichTextToWeChatHTML payload
    if text != "" then
      "<blockquote style=\"text-align:left;color:rgb(91, 91, 91);line-height:1.5;font-family:" ++ fontSerif ++ ";font-size:16px;margin:20px 10px;padding:1px 0 1px 10px;background:rgba(158, 158, 158, 0.1);border-left:3px solid rgb(158,158,158)\">" ++ paragraphTag text ++ "</blockquote>"
    else ""
  else if type_ == "code" then
    let text := extractPlainTextFromRichText payload
    let language := match payload.language with
      | some lang => if lang != "" then lang else "bash"
      | none => "bash"
    if text != "" then
      let lines := splitOnGo text "\n"
      let lineNumbers := lines.foldl (fun acc _ => acc ++ "<li></li>") ""
      let codeLines := lines.foldl (fun acc line => acc ++ codeLineTag line) ""
      "<section class=\"code-snippet__fix code-snippet__js\"><ul class=\"code-snippet__line-index code-snippet__js\">" ++ lineNumbers ++ "</ul><pre class=\"code-snippet__js\" data-lang=\"" ++ language ++ "\">" ++ codeLines ++ "</pre></section>"
    else ""
  else if type_ == "divider" then
    "<hr style=\"margin: 40px 10px; border: none; border-top: 1px solid #ddd;\">"
  else if type_ == "image" then convertImageBlockToWeChatHTML payload
  else if type_ == "column_list" || type_ == "column" then ""
  else
    let text := extractRichTextToWeChatHTML payload
    if text != "" then paragraphTag text else ""

/-- Go `convertBlockToWeChatHTMLWithCounter`: the switch over the block type
(the result carries the counter after the call). -/
def convertBlockToWeChatHTMLWithCounter (block : Block) (counter : Nat) : AlFolio.ConvOut :=
  match block with
  | .malformed => { content := "", skip := true, isNumberedList := false, counter := counter }
  | .node type_ payload =>
    if type_ == "numbered_list_item" then
      let text := extractRichTextToWeChatHTML payload
      if text != "" then
        { content :=
            "<p style=\"text-align:left;color:#3f3f3f;line-height:1.5;font-family:" ++ fontSerif ++ ";font-size:16px;margin:20px 10px;margin-left:0;padding-left:20px\"><span style=\"text-align:left;color:#3f3f3f;line-height:1.5;font-family:" ++ fontSerif ++ ";font-size:16px;text-indent:-20px;display:block;margin:10px 10px\"><span style=\"margin-right: 10px;\">" ++ toString (counter + 1) ++ ".</span>" ++ text ++ "</span></p>",
          skip := false, isNumberedList := true, counter := counter + 1 }
      else
        { content := "", skip := false, isNumberedList := false, counter := counter }
    else
      { content := wcBlockContent type_ payload, skip := false,
        isNumberedList := false, counter := counter }

/-- The loop body of `convertNotionBlocksToWeChatHTML`: skipped blocks are
dropped, the counter resets after any non-numbered processed block, and
only non-empty renderings are collected. -/
def wcLoop : List Block → Nat → List String
  | [], _ => []
  | b :: bs, counter =>
    let out := convertBlockToWeChatHTMLWithCounter b counter
    if out.skip then
      wcLoop bs out.counter
    else
      let counter' := if out.isNumberedList then out.counter else 0
      (if out.content != "" then [out.content] else []) ++ wcLoop bs counter'

/-- Go `convertNotionBlocksToWeChatHTML` after JSON decoding. -/
def convertNotionBlocksToWeChatHTML (blocks : List Block) : String :=
  cleanWeChatText (String.intercalate "" (wcLoop blocks 0))

/-- The counter as it stands after one WeChat loop iteration. -/
def wcCounterStep (b : Block) (counter : Nat) : Nat :=
  let out := convertBlockToWeChatHTMLWithCounter b counter
  if out.skip then out.counter
  else if out.isNumberedList then out.counter else 0

end Ripple.WeChatOfficial

namespace Ripple.Substack

open Ripple

/-- One ProseMirror mark as built by `applySubstackFormatting`.  The link
mark's `Attrs` map also carries the constants `target="_blank"`,
`rel="noopener noreferrer nofollow"` and `class=nil`; only the `href`
entry varies, so it is the one modelled. -/
structure SubstackMark where
  type_ : String
  href : Option String
deriving DecidableEq

/-- A ProseMirror text node as built by `applySubstackFormatting`. -/
structure SubstackNode where
  type_ : String
  text : String
  marks : List SubstackMark
deriving DecidableEq

/-- Go `applySubstackFormatting`: collects marks for bold, italic, code and
strikethrough in that order (there is no underline case), then appends the
link mark when `href` is present and non-empty. -/
def applySubstackFormatting (text : String) (rt : RichTextSpan) : SubstackNode :=
  let marks : List SubstackMark :=
    match rt.annots with
    | none => []
    | some a =>
      (if a.bold then [{ type_ := "strong", href := none }] else []) ++
      (if a.italic then [{ type_ := "em", href := none }] else []) ++
      (if a.codeStyle then [{ type_ := "code", href := none }] else []) ++
      (if a.strikethrough then [{ type_ := "strikethrough", href := none }] else [])
  let marks :=
    match rt.href with
    | some href => if href != "" then marks ++ [{ type_ := "link", href := some href }] else marks
    | none => marks
  { type_ := "text", text := text, marks := marks }

end Ripple.Substack

namespace Ripple.ImgProc

open Ripple

/-- Go `strings.Contains`. -/
def containsSubstr (s sub : String) : Bool :=
  hasInfixL sub.data s.data

/-- Go `strings.ToLower` (ASCII as exercised here). -/
def toLowerStr (s : String) : String :=
  String.mk (s.data.map Char.toLower)

/-- Go `isImageURL`: known image extension anywhere in the lowered URL, or a
Notion S3 host, or a notion+image URL. -/
def isImageURL (url : String) : Bool :=
  let urlLower := toLowerStr url
  [".jpg", ".jpeg", ".png", ".gif", ".webp", ".svg"].any
      (fun ext => containsSubstr urlLower ext)
    || containsSubstr url "prod-files-secure.s3.us-west-2.amazonaws.com"
    || (containsSubstr url "notion" && containsSubstr url "image")

/-- Go `normalizeImageURL`: drop everything from the first `?` on. -/
def normalizeImageURL (url : String) : String :=
  match url.data.takeWhile (fun c => c != '?') with
  | pre => if pre.length == url.data.length then url else String.mk pre

/-- Go `getFileExtension`: last dot-separated part, lowered, cut at `?`,
kept only when it is a known image extension. -/
def getFileExtension (url : String) : String :=
  let parts := splitOnGo url "."
  if parts.length > 1 then
    let ext := toLowerStr ((parts.getLastD ""))
    let ext := String.mk (ext.data.takeWhile (fun c => c != '?'))
    if ["jpg", "jpeg", "png", "gif", "webp", "svg"].any (fun v => v == ext) then
      "." ++ ext
    else ""
  else ""

/-- Go `deduplicateURLs`: keep the first occurrence of each exact URL. -/
def deduplicateURLs (urls : List String) : List String :=
  urls.foldl (fun acc url => if acc.contains url then acc else acc ++ [url]) []

/-! The three regex extractors of `extractImageURLs` are realised as
character-list scanners with the same leftmost, non-overlapping semantics
(the sources are ASCII here, so byte offsets and characters coincide).
The scanners run on fuel initialised to the input length, which every
step strictly decreases, so the fuel never runs out. -/

/-- Consume characters up to and including `stop`; fail if `stop` is absent. -/
def takeUntilChar (stop : Char) : List Char → Option (List Char × List Char)
  | [] => none
  | c :: cs =>
    if c = stop then some ([], cs)
    else match takeUntilChar stop cs with
      | some (seg, rest) => some (c :: seg, rest)
      | none => none

/-- Consume characters up to and including the first of `s₁`/`s₂`. -/
def takeUntilChar2 (s₁ s₂ : Char) : List Char → Option (List Char × List Char)
  | [] => none
  | c :: cs =>
    if c = s₁ || c = s₂ then some ([], cs)
    else match takeUntilChar2 s₁ s₂ cs with
      | some (seg, rest) => some (c :: seg, rest)
      | none => none

/-- Strip a literal prefix. -/
def stripLit : List Char → List Char → Option (List Char)
  | [], l => some l
  | _, [] => none
  | p :: ps, c :: cs => if c = p then stripLit ps cs else none

/-- The whitespace class of Go's regexp `\s`. -/
def isSpaceGo (c : Char) : Bool :=
  c = ' ' || c = '\t' || c = '\n' || c = Char.ofNat 12 || c = '\r'

/-- Match `!\[[^\]]*\]\(([^)]+)\)` at the head of the input, returning the
captured URL and the rest. -/
def matchMdImage (l : List Char) : Option (String × List Char) :=
  match l with
  | '!' :: '[' :: cs =>
    match takeUntilChar ']' cs with
    | some (_, cs₁) =>
      match cs₁ with
      | '(' :: cs₂ =>
        match takeUntilChar ')' cs₂ with
        | some (url, cs₃) => if url.isEmpty then none else some (String.mk url, cs₃)
        | none => none
      | _ => none
    | none => none
  | _ => none

/-- Match `path="([^"]+)"[^%]*%\x7d` at the head of the input. -/
def matchPathHere (l : List Char) : Option (String × List Char) :=
  match stripLit "path=\"".data l with
  | some cs =>
    match takeUntilChar '"' cs with
    | some (url, rest) =>
      if url.isEmpty then none
      else
        match rest.dropWhile (fun c => c != '%') with
        | '%' :: '}' :: rest₂ => some (String.mk url, rest₂)
        | _ => none
    | none => none
  | none => none

/-- The greedy `[^%]*path="..."` tail of the liquid image pattern: prefer
the latest viable start of `path="` within the `%`-free run. -/
def liquidFrom : List Char → Option (String × List Char)
  | [] => none
  | c :: cs =>
    if c = '%' then none
    else
      match liquidFrom cs with
      | some r => some r
      | none => matchPathHere (c :: cs)

/-- Match the liquid figure pattern
`\x7b%\s*include\s+figure\.liquid[^%]*path="([^"]+)"[^%]*%\x7d` at the head. -/
def matchLiquidImage (l : List Char) : Option (String × List Char) :=
  match l with
  | '{' :: '%' :: cs =>
    let cs := cs.dropWhile isSpaceGo
    match stripLit "include".data cs with
    | some cs =>
      match cs with
      | c :: _ =>
        if isSpaceGo c then
          let cs := cs.dropWhile isSpaceGo
          match stripLit "figure.liquid".data cs with
          | some cs => liquidFrom cs
          | none => none
        else none
      | [] => none
    | none => none
  | _ => none

/-- Match `src=["']([^"']+)["']` at the head of the input, then the
`[^>]*>` tail. -/
def matchSrcHere (l : List Char) : Option (String × List Char) :=
  match stripLit "src=".data l with
  | some cs =>
    match cs with
    | q :: cs₂ =>
      if q = '"' || q = Char.ofNat 39 then
        match takeUntilChar2 '"' (Char.ofNat 39) cs₂ with
        | some (url, rest) =>
          if url.isEmpty then none
          else
            match rest.dropWhile (fun c => c != '>') with
            | '>' :: rest₂ => some (String.mk url, rest₂)
            | _ => none
        | none => none
      else none
    | [] => none
  | none => none

/-- The greedy `[^>]+src=...` tail of the HTML image pattern: at least one
`>`-free character precedes `src=`, later starts are preferred. -/
def htmlFrom : List Char → Option (String × List Char)
  | [] => none
  | c :: cs =>
    if c = '>' then none
    else
      match htmlFrom cs with
      | some r => some r
      | none => matchSrcHere cs

/-- Match `<img[^>]+src=["']([^"']+)["'][^>]*>` at the head. -/
def matchHtmlImage (l : List Char) : Option (String × List Char) :=
  match l with
  | '<' :: 'i' :: 'm' :: 'g' :: cs => htmlFrom cs
  | _ => none

/-- Leftmost non-overlapping scan driven by one of the matchers above. -/
def scanWith (matcher : List Char → Option (String × List Char)) :
    Nat → List Char → List String
  | 0, _ => []
  | _ + 1, [] => []
  | fuel + 1, c :: cs =>
    match matcher (c :: cs) with
    | some (url, rest) => url :: scanWith matcher fuel rest
    | none => scanWith matcher fuel cs

/-- Go `extractImageURLs`: markdown matches, then liquid figure matches,
then HTML `img` matches — each trimmed and filtered by `isImageURL` —
deduplicated at the end. -/
def extractImageURLs (content : String) : List String :=
  let cs := content.data
  let mdURLs := ((scanWith matchMdImage cs.length cs).map trimGo).filter isImageURL
  let liquidURLs := ((scanWith matchLiquidImage cs.length cs).map trimGo).filter isImageURL
  let htmlURLs := ((scanWith matchHtmlImage cs.length cs).map trimGo).filter isImageURL
  deduplicateURLs (mdURLs ++ liquidURLs ++ htmlURLs)

/-- An image resource as produced by the al-folio processor. -/
structure Resource where
  id : String
  type_ : String
  url : String
  localPath : String
  metadata : List (String × String)
deriving DecidableEq

/-- Go `downloadAndProcessImage` with the download itself succeeding: the
resource built for one URL.  `ts` is the `time.Now().Unix()` timestamp and
`counter` the incremented `imageCounter`. -/
def downloadAndProcessImage (ts counter : Nat) (url assetsPath imageDir : String) : Resource :=
  let extension := let e := getFileExtension url; if e == "" then ".png" else e
  let filename := toString ts ++ "_" ++ toString counter ++ extension
  { id := "img_" ++ toString counter
    type_ := "image"
    url := "/assets/img/" ++ imageDir ++ "/" ++ filename
    localPath := assetsPath ++ "/" ++ filename
    metadata := [("original_url", url), ("filename", filename), ("image_dir", imageDir)] }

/-- The download loop of `ProcessContent` (every download succeeding): one
resource per extracted URL, and the original-URL → new-path map, which also
records the normalized URL whenever it differs. -/
def processContentResources (ts : Nat) (content imageDir repoPath : String) :
    List Resource × List (String × String) :=
  let assetsImagePath := repoPath ++ "/assets/img/" ++ imageDir
  let urls := extractImageURLs content
  let out := urls.foldl
    (fun (acc : List Resource × List (String × String) × Nat) url =>
      let counter := acc.2.2 + 1
      let resource := downloadAndProcessImage ts counter url assetsImagePath imageDir
      let imageMap := mapSet acc.2.1 url resource.url
      let normalizedURL := normalizeImageURL url
      let imageMap := if normalizedURL != url then mapSet imageMap normalizedURL resource.url
        else imageMap
      (acc.1 ++ [resource], imageMap, counter))
    ([], [], 0)
  (out.1, out.2.1)

/-- Go `ImageLayout`. -/
inductive ImageLayout where
  | singleImage
  | twoColumnRow
  | threeColumnRow
  | fourColumnRow
deriving DecidableEq

/-- Go `determineLayout`. -/
def determineLayout (imageCount : Nat) : ImageLayout :=
  match imageCount with
  | 1 => .singleImage
  | 2 => .twoColumnRow
  | 3 => .threeColumnRow
  | 4 => .fourColumnRow
  | _ => .twoColumnRow

/-- The repeated lookup pattern of `generateAlFolioImageHTML`: the map entry
for the URL, else the entry for its normalized form, else the URL itself. -/
def resolvePath (imageMap : List (String × String)) (url : String) : String :=
  let p := goGet imageMap url
  let p := if p == "" then goGet imageMap (normalizeImageURL url) else p
  if p == "" then url else p

/-- One `col-sm` figure cell of the generated rows. -/
def figureCell (p : String) : String :=
  "    <div class=\"col-sm mt-0 mb-0\">\n        \x7b% include figure.liquid loading=\"eager\" path=\"" ++ p ++ "\" class=\"img-fluid rounded z-depth-1\" zoomable=true %\x7d\n    </div>\n"

/-- The single-column row emitted for one image. -/
def singleRowHTML (p : String) : String :=
  "<div class=\"row mt-3\">\n" ++ figureCell p ++ "</div>"

/-- Go `generateAlFolioImageHTML`: the switch has cases only for the single,
two-column and three-column layouts; everything else (including the
four-column layout) reaches the single-image fallback on the first URL,
and an empty URL list produces `""`. -/
def generateAlFolioImageHTML (urls : List String) (imageMap : List (String × String))
    (layout : ImageLayout) : String :=
  let fallback := match urls with
    | u :: _ => singleRowHTML (resolvePath imageMap u)
    | [] => ""
  match layout, urls with
  | .singleImage, u :: _ => singleRowHTML (resolvePath imageMap u)
  | .twoColumnRow, u1 :: u2 :: _ =>
    "<div class=\"row mt-3\">\n" ++ figureCell (resolvePath imageMap u1) ++
      figureCell (resolvePath imageMap u2) ++ "</div>"
  | .threeColumnRow, u1 :: u2 :: u3 :: _ =>
    "<div class=\"row mt-3\">\n" ++ figureCell (resolvePath imageMap u1) ++
      figureCell (resolvePath imageMap u2) ++ figureCell (resolvePath imageMap u3) ++ "</div>"
  | _, _ => fallback

end Ripple.ImgProc

namespace Ripple.Pub

open Ripple

/-- Go `PublishResult`; unset fields of a Go struct literal take their zero
values, realised here as field defaults. -/
structure PublishResult where
  success : Bool := false
  publishID : String := ""
  url : String := ""
  error : Option String := none
  errorMsg : String := ""
  metadata : List (String × String) := []
  publishedAt : Nat := 0
deriving DecidableEq

/-- Go `PublishConfig`. -/
structure PublishConfig where
  platformName : String := ""
  enabled : Bool := false
  config : List (String × String) := []
deriving DecidableEq

/-- A failure result `&PublishResult{Success: false, Error: err}`. -/
def failResult (e : String) : PublishResult :=
  { success := false, error := some e }

/-- A failure result that also fills `ErrorMsg`, as the adapters do. -/
def failResultMsg (e : String) : PublishResult :=
  { success := false, error := some e, errorMsg := e }

/-- Adapter lifecycle stages reached by a `PublishDirect` run. -/
inductive StageEv where
  | transformCall
  | processCall
  | saveDraftCall
  | publishCall
deriving DecidableEq

/-- Stage outcomes of the WeChat adapter, abstracting its network calls:
the transformed content, the media-processing error, and the draft/publish
call results. -/
structure WeChatStages where
  transformOutcome : Except String String
  processErr : Option String
  saveToDraft : Except String PublishResult
  publish : Except String PublishResult

/-- Go `WeChatOfficialPublisher.PublishDirect`: token check, transform,
process resources, save to draft, then auto-publish gated on the
`auto_publish` config value; a failing publish keeps the draft result and
records the error under `publish_error` in its metadata. -/
def wechatPublishDirect (accessToken : String) (st : WeChatStages)
    (config : PublishConfig) : PublishResult × List StageEv :=
  if accessToken == "" then
    (failResultMsg "WeChat publisher not initialized - access token missing", [])
  else
    match st.transformOutcome with
    | .error e => (failResultMsg ("content transformation failed: " ++ e), [.transformCall])
    | .ok _ =>
      match st.processErr with
      | some e => (failResultMsg ("media processing failed: " ++ e),
        [.transformCall, .processCall])
      | none =>
        match st.saveToDraft with
        | .error e => (failResultMsg ("draft creation failed: " ++ e),
          [.transformCall, .processCall, .saveDraftCall])
        | .ok draftResult =>
          if goGet config.config "auto_publish" == "true" then
            match st.publish with
            | .error e =>
              ({ draftResult with metadata := mapSet draftResult.metadata "publish_error" e },
                [.transformCall, .processCall, .saveDraftCall, .publishCall])
            | .ok publishResult =>
              (publishResult, [.transformCall, .processCall, .saveDraftCall, .publishCall])
          else
            (draftResult, [.transformCall, .processCall, .saveDraftCall])

/-- Stage outcomes of the Substack adapter (its `SaveToDraft` performs
transform and resource processing internally before the draft call). -/
structure SubstackStages where
  saveToDraft : Except String PublishResult
  publish : Except String PublishResult

/-- Go `SubstackPublisher.PublishDirect`: save to draft, pass through an
unsuccessful draft result, then auto-publish gated on `auto_publish`; a
failing publish keeps the draft result with the error in `publish_error`. -/
def substackPublishDirect (st : SubstackStages) (config : PublishConfig) :
    PublishResult × List StageEv :=
  match st.saveToDraft with
  | .error e => (failResultMsg e, [.saveDraftCall])
  | .ok draftResult =>
    if !draftResult.success then (draftResult, [.saveDraftCall])
    else if goGet config.config "auto_publish" == "true" then
      match st.publish with
      | .error e =>
        ({ draftResult with metadata := mapSet draftResult.metadata "publish_error" e },
          [.saveDraftCall, .publishCall])
      | .ok publishResult => (publishResult, [.saveDraftCall, .publishCall])
    else (draftResult, [.saveDraftCall])

/-- The git repository capability behind the al-folio adapter. -/
structure RepoOracle where
  hasChanges : Except String Bool
  addErr : Option String
  commitErr : Option String
  pushErr : Option String
  lastCommitHash : String
  branch : String
  localPath : String

/-- Go `generateSlugFromFilename`: drop the `YYYY-MM-DD-` date parts and the
`.md` extension. -/
def generateSlugFromFilename (filename : String) : String :=
  let parts := splitOnGo filename "-"
  if parts.length ≥ 4 then
    let slug := String.intercalate "-" (parts.drop 3)
    if hasSuffixGo slug ".md" then dropSuffixGo slug 3 else slug
  else filename

/-- Go `AlFolioPublisher.Publish`: commit and push.  Every branch returns a
nil Go error; failures are reported inside the result.  The push is the
only step gated on `auto_publish` (default true). -/
def alFolioPublish (repo : RepoOracle) (now nowYear : Nat) (draftID : String)
    (config : PublishConfig) : PublishResult :=
  let successResult : PublishResult :=
    { success := true
      publishID := draftID
      url := if goGet config.config "base_url" != "" then
          goGet config.config "base_url" ++ "/blog/" ++ toString nowYear ++ "/" ++
            generateSlugFromFilename draftID ++ "/"
        else ""
      publishedAt := now
      metadata := [("commit_hash", repo.lastCommitHash), ("branch", repo.branch),
        ("repo_path", repo.localPath)] }
  match repo.hasChanges with
  | .error e => failResult ("failed to check git status: " ++ e)
  | .ok hasChanges =>
    if !hasChanges then { success := true, publishID := draftID, publishedAt := now }
    else
      match repo.addErr with
      | some e => failResult ("failed to stage changes: " ++ e)
      | none =>
        match repo.commitErr with
        | some e => failResult ("failed to commit changes: " ++ e)
        | none =>
          let autoPublish :=
            if goGet config.config "auto_publish" != "" then
              goGet config.config "auto_publish" == "true"
            else true
          if autoPublish then
            match repo.pushErr with
            | some e => failResult ("failed to push changes: " ++ e)
            | none => successResult
          else successResult

/-- Stage outcomes of the al-folio adapter up to the post-file write. -/
structure AlFolioStages where
  transformOutcome : Except String String
  processErr : Option String
  writePost : Except String PublishResult

/-- Go `AlFolioPublisher.PublishDirect`: transform, process resources, write
the post file, then always call `Publish` and return its result as-is —
there is no auto-publish gate here and a publish failure fails the call. -/
def alFolioPublishDirect (st : AlFolioStages) (repo : RepoOracle) (now nowYear : Nat)
    (config : PublishConfig) : PublishResult × List StageEv :=
  match st.transformOutcome with
  | .error e => (failResultMsg e, [.transformCall])
  | .ok _ =>
    match st.processErr with
    | some e => (failResultMsg e, [.transformCall, .processCall])
    | none =>
      match st.writePost with
      | .error e => (failResultMsg e, [.transformCall, .processCall, .saveDraftCall])
      | .ok writeResult =>
        (alFolioPublish repo now nowYear writeResult.publishID config,
          [.transformCall, .processCall, .saveDraftCall, .publishCall])

end Ripple.Pub

namespace Ripple.Mgr

open Ripple Ripple.Pub

/-- The fields of `models.NotionPage` the publish path reads. -/
structure NotionPage where
  id : Nat
  notionID : String := ""
  title : String := ""
  content : String := ""
  summary : String := ""
  tags : List String := []
  owner : String := ""
  status : String := ""
  enTitle : String := ""
  postDate : Option Nat := none
  platforms : List String := []
  contentTypes : List String := []
deriving DecidableEq

/-- Go `PublishContent` as built by `FromNotionPage` (the resource list
starts empty and the manager never reads it). -/
structure PublishContent where
  id : String
  title : String
  content : String
  summary : String
  tags : List String
  author : String
  publishDate : Option Nat
  metadata : List (String × String)
deriving DecidableEq

/-- Go `FromNotionPage`. -/
def fromNotionPage (page : NotionPage) : PublishContent :=
  let metadata := [("notion_id", page.notionID), ("status", page.status)]
  let metadata := if page.platforms.length > 0 then
      metadata ++ [("platforms", String.intercalate "," page.platforms)] else metadata
  let metadata := if page.contentTypes.length > 0 then
      metadata ++ [("content_type", String.intercalate "," page.contentTypes)] else metadata
  let metadata := if page.enTitle != "" then
      metadata ++ [("en_title", page.enTitle)] else metadata
  { id := page.notionID, title := page.title, content := page.content,
    summary := page.summary, tags := page.tags, author := page.owner,
    publishDate := page.postDate, metadata := metadata }

/-- One row of the `distribution_jobs` table (the in-memory-only
`PublishedAt` assignment after the final save is not persisted, and the
timestamps are irrelevant to the manager's control flow). -/
structure JobRow where
  id : Nat
  pageID : Nat
  platformID : Nat
  status : String
  content : String
  error : String
deriving DecidableEq

/-- One row of the `platforms` table (lazily created rows get
`Enabled: true`; the display name and config JSON are never read back). -/
structure PlatformRow where
  id : Nat
  name : String
  enabled : Bool
deriving DecidableEq

/-- The gorm-backed store: rows in primary-key order plus the next
auto-increment ids. -/
structure DBState where
  jobs : List JobRow
  platforms : List PlatformRow
  nextJobID : Nat
  nextPlatformID : Nat
deriving DecidableEq

/-- The store of a fresh deployment (auto-increment ids start at 1). -/
def initialDB : DBState :=
  { jobs := [], platforms := [], nextJobID := 1, nextPlatformID := 1 }

def findPlatform (db : DBState) (name : String) : Option PlatformRow :=
  db.platforms.find? (fun p => p.name == name)

/-- Go `getPlatformID`: look the platform up by name; create it when absent
(`createFails` abstracts the create call erroring, in which case 0 is
returned and nothing changes). -/
def getPlatformID (db : DBState) (name : String) (createFails : Bool) : Nat × DBState :=
  match findPlatform db name with
  | some p => (p.id, db)
  | none =>
    if createFails then (0, db)
    else
      (db.nextPlatformID,
        { db with
            platforms := db.platforms ++ [{ id := db.nextPlatformID, name := name, enabled := true }]
            nextPlatformID := db.nextPlatformID + 1 })

/-- The `First` query for an existing completed job of a (page, platform)
pair. -/
def findCompletedJob (db : DBState) (pageID platformID : Nat) : Option JobRow :=
  db.jobs.find? (fun j =>
    j.pageID == pageID && j.platformID == platformID && j.status == "completed")

/-- Insert a new job row with the next auto-increment id. -/
def createJob (db : DBState) (pageID platformID : Nat) (status content : String) :
    JobRow × DBState :=
  let j : JobRow :=
    { id := db.nextJobID, pageID := pageID, platformID := platformID,
      status := status, content := content, error := "" }
  (j, { db with jobs := db.jobs ++ [j], nextJobID := db.nextJobID + 1 })

/-- Go `updateJobStatus`: save the new status and error text on the row. -/
def updateJobStatus (db : DBState) (jobID : Nat) (status error : String) : DBState :=
  { db with jobs := db.jobs.map (fun j =>
      if j.id == jobID then { j with status := status, error := error } else j) }

/-- The per-call behaviour of one registered adapter, abstracting its
network and git effects. -/
structure AdapterBehavior where
  initErr : Option String
  transformOutcome : Except String String
  processOutcome : Except String String
  saveToDraft : Except String PublishResult
  publishDirect : Except String PublishResult

/-- The manager's registry and per-platform configs, fixed at setup time. -/
structure ManagerCfg where
  registered : List String
  configs : List (String × PublishConfig)

/-- Adapter invocations the manager performs, tagged by platform. -/
inductive MgrEv where
  | initCall (platform : String)
  | publishDirectCall (platform : String)
  | cleanupCall (platform : String)
deriving DecidableEq

def MgrEv.platform : MgrEv → String
  | .initCall p => p
  | .publishDirectCall p => p
  | .cleanupCall p => p

/-- Accumulated state of one `PublishToPlatforms` call: the results map, the
store, and the adapter invocations so far. -/
structure MgrState where
  results : List (String × PublishResult)
  db : DBState
  trace : List MgrEv
deriving DecidableEq

/-- One iteration of the `PublishToPlatforms` loop, for `platformName`.
`o` gives each adapter's behaviour for this call and `dbo` tells whether
the lazy platform-row create fails for a name. -/
def processPlatform (cfg : ManagerCfg) (o : String → AdapterBehavior)
    (dbo : String → Bool) (page : NotionPage) (contentStr : String)
    (st : MgrState) (platformName : String) : MgrState :=
  if !(cfg.registered.contains platformName) then
    let r := failResult ("publisher for platform " ++ platformName ++ " not found")
    { st with results := mapSet st.results platformName r }
  else
    match mapGet? cfg.configs platformName with
    | none =>
      let r := failResult ("config for platform " ++ platformName ++ " not found")
      { st with results := mapSet st.results platformName r }
    | some config =>
      if !config.enabled then
        let r := failResult ("platform " ++ platformName ++ " is disabled")
        { st with results := mapSet st.results platformName r }
      else
        let pid := (getPlatformID st.db platformName (dbo platformName)).1
        let db1 := (getPlatformID st.db platformName (dbo platformName)).2
        if pid == 0 then
          let r := failResult ("failed to get platform ID for " ++ platformName)
          { results := mapSet st.results platformName r, db := db1, trace := st.trace }
        else
          match findCompletedJob db1 page.id pid with
          | some existingJob =>
            let r : PublishResult :=
              { success := true, publishID := "existing-job-" ++ toString existingJob.id }
            { results := mapSet st.results platformName r, db := db1, trace := st.trace }
          | none =>
            let job := (createJob db1 page.id pid "in_progress" contentStr).1
            let db2 := (createJob db1 page.id pid "in_progress" contentStr).2
            let b := o platformName
            let trace1 := st.trace ++ [.initCall platformName]
            match b.initErr with
            | some e =>
              { results := mapSet st.results platformName (failResult e),
                db := updateJobStatus db2 job.id "failed" e, trace := trace1 }
            | none =>
              let trace2 := trace1 ++ [.publishDirectCall platformName]
              match b.publishDirect with
              | .error e =>
                { results := mapSet st.results platformName (failResult e),
                  db := updateJobStatus db2 job.id "failed" e, trace := trace2 }
              | .ok result =>
                let errMsg :=
                  match result.error with
                  | some m => m
                  | none => "unknown error"
                let db3 :=
                  if result.success then updateJobStatus db2 job.id "completed" ""
                  else updateJobStatus db2 job.id "failed" errMsg
                let trace3 :=
                  if result.success && result.publishID != "" then
                    trace2 ++ [.cleanupCall platformName]
                  else trace2
                { results := mapSet st.results platformName result, db := db3, trace := trace3 }

/-- Go `Manager.PublishToPlatforms`: fold the loop over the requested
platforms and return the results map together with the literal `nil`
error of its single return statement. -/
def publishToPlatforms (cfg : ManagerCfg) (o : String → AdapterBehavior)
    (dbo : String → Bool) (page : NotionPage) (platforms : List String)
    (db : DBState) : MgrState × Option String :=
  let contentStr := (fromNotionPage page).content
  (platforms.foldl (processPlatform cfg o dbo page contentStr)
    { results := [], db := db, trace := [] }, none)

/-- Go `mapPlatformName`: the Notion-label → platform-key lookup table;
unknown labels map to `""` (after a logged warning). -/
def mapPlatformName (notionPlatform : String) : String :=
  let platformMap : List (String × String) :=
    [("Blog", "al-folio"), ("blog", "al-folio"), ("Jekyll", "al-folio"),
     ("jekyll", "al-folio"), ("微信公众号", "wechat-official"),
     ("WeChat", "wechat-official"), ("wechat", "wechat-official"),
     ("Substack", "substack"), ("substack", "substack"),
     ("al-folio", "al-folio"), ("wechat-official", "wechat-official")]
  match mapGet? platformMap notionPlatform with
  | some systemName => systemName
  | none => ""

/-- The label-mapping loop of `PublishToAll`: collect the mapped name of
each declared label, dropping labels that map to `""`. -/
def mappedPlatforms (labels : List String) : List String :=
  labels.foldl
    (fun acc notionPlatform =>
      if mapPlatformName notionPlatform != "" then
        acc ++ [mapPlatformName notionPlatform]
      else acc) []

/-- The platform list `PublishToAll` computes: mapped labels with unmapped
ones dropped, falling back to every registered platform when none is left. -/
def effectivePlatforms (cfg : ManagerCfg) (page : NotionPage) : List String :=
  let platforms := mappedPlatforms page.platforms
  if platforms.length == 0 then cfg.registered else platforms

/-- Go `Manager.PublishToAll`. -/
def publishToAll (cfg : ManagerCfg) (o : String → AdapterBehavior)
    (dbo : String → Bool) (page : NotionPage) (db : DBState) :
    MgrState × Option String :=
  publishToPlatforms cfg o dbo page (effectivePlatforms cfg page) db

/-- Row creation of `PublishSinglePlatform`: the row carries the processed
content and, when the result has an error, its message. -/
def createJobWithError (db : DBState) (pageID platformID : Nat)
    (status content : String) (result : PublishResult) : JobRow × DBState :=
  let errText :=
    match result.error with
    | some m => m
    | none => ""
  let j : JobRow :=
    { id := db.nextJobID, pageID := pageID, platformID := platformID,
      status := status, content := content, error := errText }
  (j, { db with jobs := db.jobs ++ [j], nextJobID := db.nextJobID + 1 })

/-- Go `Manager.PublishSinglePlatform`: no prior-completed check — on a
non-draft success it records a fresh `completed` row directly, and a draft
success records a `draft` row. -/
def publishSinglePlatform (cfg : ManagerCfg) (o : String → AdapterBehavior)
    (dbo : String → Bool) (page : NotionPage) (platformName : String)
    (isDraft : Bool) (db : DBState) : PublishResult × DBState :=
  if !(cfg.registered.contains platformName) then
    (failResult ("publisher for platform " ++ platformName ++ " not found"), db)
  else
    match mapGet? cfg.configs platformName with
    | none => (failResult ("config for platform " ++ platformName ++ " not found"), db)
    | some config =>
      if !config.enabled then
        (failResult ("platform " ++ platformName ++ " is disabled"), db)
      else
        let b := o platformName
        match b.initErr with
        | some e => (failResult e, db)
        | none =>
          match b.transformOutcome with
          | .error e => (failResult e, db)
          | .ok _ =>
            match b.processOutcome with
            | .error e => (failResult e, db)
            | .ok processedContent =>
              match (if isDraft then b.saveToDraft else b.publishDirect) with
              | .error e => (failResult e, db)
              | .ok result =>
                let status := if !result.success then "failed"
                  else if isDraft then "draft" else "completed"
                let pid := (getPlatformID db platformName (dbo platformName)).1
                let db1 := (getPlatformID db platformName (dbo platformName)).2
                if pid == 0 then
                  (failResult ("failed to get platform ID for " ++ platformName), db1)
                else
                  let db2 := (createJobWithError db1 page.id pid status processedContent
                    result).2
                  (result, db2)

/-- One manager dispatch operation (the oracles may differ per call). -/
inductive MgrOp where
  | toAll (o : String → AdapterBehavior) (dbo : String → Bool) (page : NotionPage)
  | toPlatforms (o : String → AdapterBehavior) (dbo : String → Bool)
      (page : NotionPage) (platforms : List String)
  | single (o : String → AdapterBehavior) (dbo : String → Bool)
      (page : NotionPage) (platformName : String) (isDraft : Bool)

/-- The store after one operation. -/
def runOp (cfg : ManagerCfg) (db : DBState) : MgrOp → DBState
  | .toAll o dbo page => (publishToAll cfg o dbo page db).1.db
  | .toPlatforms o dbo page platforms => (publishToPlatforms cfg o dbo page platforms db).1.db
  | .single o dbo page platformName isDraft =>
    (publishSinglePlatform cfg o dbo page platformName isDraft db).2

/-- The store after a sequence of operations. -/
def runOps (cfg : ManagerCfg) (db : DBState) (ops : List MgrOp) : DBState :=
  ops.foldl (runOp cfg) db

/-- Completed rows of one (page, platform) pair. -/
def completedCount (db : DBState) (pageID platformID : Nat) : Nat :=
  (db.jobs.filter (fun j =>
    j.pageID == pageID && j.platformID == platformID && j.status == "completed")).length

end Ripple.Mgr

namespace Ripple

open Ripple.Pub

/-! ### Claims about the converters -/

/-- A block the markdown converter renders as a numbered item: a
`numbered_list_item` whose extracted rich text is non-empty. -/
def nonEmptyNumberedMd (b : Block) : Bool :=
  match b with
  | .malformed => false
  | .node t payload => t == "numbered_list_item" && AlFolio.extractRichTextToMarkdown payload != ""

/-- A block the WeChat converter renders as a numbered item. -/
def nonEmptyNumberedWc (b : Block) : Bool :=
  match b with
  | .malformed => false
  | .node t payload => t == "numbered_list_item" && WeChatOfficial.extractRichTextToWeChatHTML payload != ""

/-- Numbered items `a`, `b`, an empty paragraph, then numbered item `c`. -/
def counterBlocks1 : List Block :=
  [ .node "numbered_list_item" (rtPayload [plainSpan "a"]),
    .node "numbered_list_item" (rtPayload [plainSpan "b"]),
    .node "paragraph" (rtPayload []),
    .node "numbered_list_item" (rtPayload [plainSpan "c"]) ]

/-- Numbered item `a`, a non-empty paragraph, then numbered item `b`. -/
def counterBlocks2 : List Block :=
  [ .node "numbered_list_item" (rtPayload [plainSpan "a"]),
    .node "paragraph" (rtPayload [plainSpan "text"]),
    .node "numbered_list_item" (rtPayload [plainSpan "b"]) ]

theorem conv_md_not_numbered (t : String) (payload : BlockPayload) (c : Nat)
    (ht : (t == "numbered_list_item") = false) :
    (AlFolio.convertBlockToMarkdownWithCounter (.node t payload) c).skip = false ∧
    (AlFolio.convertBlockToMarkdownWithCounter (.node t payload) c).isNumberedList = false ∧
    (AlFolio.convertBlockToMarkdownWithCounter (.node t payload) c).counter = c := by
  unfold AlFolio.convertBlockToMarkdownWithCounter
  dsimp only
  rw [ht]
  exact ⟨rfl, rfl, rfl⟩

theorem mdCounterStep_eq (b : Block) (c : Nat) :
    AlFolio.mdCounterStep b c =
      if b = .malformed then c else if nonEmptyNumberedMd b then c + 1 else 0 := by
  cases b with
  | malformed =>
    simp [AlFolio.mdCounterStep, AlFolio.convertBlockToMarkdownWithCounter, nonEmptyNumberedMd]
  | node t payload =>
    by_cases ht : t = "numbered_list_item"
    · subst ht
      by_cases htext : AlFolio.extractRichTextToMarkdown payload != ""
      · simp [AlFolio.mdCounterStep, AlFolio.convertBlockToMarkdownWithCounter,
          nonEmptyNumberedMd, htext]
      · simp_all [AlFolio.mdCounterStep, AlFolio.convertBlockToMarkdownWithCounter,
          nonEmptyNumberedMd]
    · have ht' : (t == "numbered_list_item") = false := by simp [ht]
      obtain ⟨h1, h2, h3⟩ := conv_md_not_numbered t payload c ht'
      have hne : nonEmptyNumberedMd (.node t payload) = false := by
        simp [nonEmptyNumberedMd, ht']
      simp only [AlFolio.mdCounterStep, h1, h2, hne, Bool.false_eq_true, if_false,
        reduceCtorEq]

theorem conv_wc_not_numbered (t : String) (payload : BlockPayload) (c : Nat)
    (ht : (t == "numbered_list_item") = false) :
    (WeChatOfficial.convertBlockToWeChatHTMLWithCounter (.node t payload) c).skip = false ∧
    (WeChatOfficial.convertBlockToWeChatHTMLWithCounter (.node t payload) c).isNumberedList = false ∧
    (WeChatOfficial.convertBlockToWeChatHTMLWithCounter (.node t payload) c).counter = c := by
  unfold WeChatOfficial.convertBlockToWeChatHTMLWithCounter
  dsimp only
  rw [ht]
  exact ⟨rfl, rfl, rfl⟩

theorem wcCounterStep_eq (b : Block) (c : Nat) :
    WeChatOfficial.wcCounterStep b c =
      if b = .malformed then c else if nonEmptyNumberedWc b then c + 1 else 0 := by
  cases b with
  | malformed =>
    simp [WeChatOfficial.wcCounterStep, WeChatOfficial.convertBlockToWeChatHTMLWithCounter,
      nonEmptyNumberedWc]
  | node t payload =>
    by_cases ht : t = "numbered_list_item"
    · subst ht
      by_cases htext : WeChatOfficial.extractRichTextToWeChatHTML payload != ""
      · simp [WeChatOfficial.wcCounterStep, WeChatOfficial.convertBlockToWeChatHTMLWithCounter,
          nonEmptyNumberedWc, htext]
      · simp_all [WeChatOfficial.wcCounterStep, WeChatOfficial.convertBlockToWeChatHTMLWithCounter,
          nonEmptyNumberedWc]
    · have ht' : (t == "numbered_list_item") = false := by simp [ht]
      obtain ⟨h1, h2, h3⟩ := conv_wc_not_numbered t payload c ht'
      have hne : nonEmptyNumberedWc (.node t payload) = false := by
        simp [nonEmptyNumberedWc, ht']
      simp only [WeChatOfficial.wcCounterStep, h1, h2, hne, Bool.false_eq_true, if_false,
        reduceCtorEq]

/-- C4 counterexample: in the markdown converter an empty paragraph is
processed (`skip = false`), so it resets the numbered-list counter; the
spec's example list renders its last item as `1.`, not `3.`. -/
theorem C4_numbered_counter_counterexample :
    AlFolio.convertNotionBlocksToMarkdown counterBlocks1 = "1. a\n2. b\n\n1. c"
    ∧ AlFolio.convertNotionBlocksToMarkdown counterBlocks1 ≠ "1. a\n2. b\n\n3. c"
    ∧ (AlFolio.convertBlockToMarkdownWithCounter (.node "paragraph" (rtPayload [])) 2).skip
        = false := by
  exact ⟨by decide, by decide, by decide⟩

/-- C4 (amended): in both flat-block converters the running counter after a
block is: unchanged when the block is skipped (missing/ill-typed type or
payload), incremented for a numbered item with non-empty rich text, and
reset to zero for every other block — including blocks with empty rich
text, which are processed with empty output, not skipped.  Hence
`[item a, item b, empty paragraph, item c]` renders 1, 2, 1 and
`[item a, paragraph "text", item b]` renders 1, 1. -/
theorem C4_numbered_counter_amended :
    (∀ b c, AlFolio.mdCounterStep b c =
        if b = .malformed then c else if nonEmptyNumberedMd b then c + 1 else 0)
    ∧ (∀ b c, WeChatOfficial.wcCounterStep b c =
        if b = .malformed then c else if nonEmptyNumberedWc b then c + 1 else 0)
    ∧ AlFolio.convertNotionBlocksToMarkdown counterBlocks1 = "1. a\n2. b\n\n1. c"
    ∧ AlFolio.convertNotionBlocksToMarkdown counterBlocks2 = "1. a\ntext\n1. b"
    ∧ List.foldl (fun c b => WeChatOfficial.wcCounterStep b c) 0 (counterBlocks1.take 3) = 0 :=
  ⟨mdCounterStep_eq, wcCounterStep_eq, by decide, by decide, by decide⟩

/-- A span with every annotation set and a link. -/
def fullSpan (u : String) : RichTextSpan :=
  { plainText := "", href := some u,
    annots := some
      { bold := true, italic := true, codeStyle := true,
        strikethrough := true, underline := true } }

/-- A span with bold, italic and a link. -/
def boldItalicLinkSpan (u : String) : RichTextSpan :=
  { plainText := "", href := some u,
    annots := some
      { bold := true, italic := true, codeStyle := false,
        strikethrough := false, underline := false } }

/-- A span with only the underline annotation. -/
def underlineOnlySpan : RichTextSpan :=
  { plainText := "", href := none,
    annots := some
      { bold := false, italic := false, codeStyle := false,
        strikethrough := false, underline := true } }

/-- C8 counterexample: the Substack formatter has no underline case at all —
an underline-only span yields a mark-free text node there, while the
markdown and WeChat formatters do apply underline markup, so the three
converters do not treat the annotation set identically. -/
theorem C8_formatting_order_counterexample :
    (Substack.applySubstackFormatting "x" underlineOnlySpan).marks = []
    ∧ AlFolio.applyRichTextFormatting "x" underlineOnlySpan = "*x*"
    ∧ WeChatOfficial.applyWeChatHTMLFormatting "x" underlineOnlySpan
        = WeChatOfficial.uTag "x" := by
  exact ⟨by decide, by decide, by decide⟩

/-- C8 (amended): the markdown and WeChat formatters apply annotations in
the nesting order bold → italic → code → strikethrough → underline → link,
each wrapping the previous result; the Substack formatter emits its marks
in the order bold → italic → code → strikethrough → link and ignores
underline.  For a span with bold, italic and a link, all three put bold
innermost, then italic, with the link outermost. -/
theorem C8_formatting_order_amended (t u : String) (hu : u ≠ "") :
    AlFolio.applyRichTextFormatting t (fullSpan u) =
      "[" ++ ("*" ++ ("~~" ++ ("`" ++ ("*" ++ ("**" ++ t ++ "**") ++ "*") ++ "`") ++ "~~") ++ "*")
        ++ "](" ++ u ++ ")"
    ∧ WeChatOfficial.applyWeChatHTMLFormatting t (fullSpan u) =
      WeChatOfficial.aTag u (WeChatOfficial.uTag (WeChatOfficial.sTag (WeChatOfficial.codeTag
        (WeChatOfficial.emTag (WeChatOfficial.strongTag (WeChatOfficial.escapeHTML t))))))
    ∧ (Substack.applySubstackFormatting t (fullSpan u)).marks =
      [⟨"strong", none⟩, ⟨"em", none⟩, ⟨"code", none⟩, ⟨"strikethrough", none⟩, ⟨"link", some u⟩]
    ∧ AlFolio.applyRichTextFormatting t (boldItalicLinkSpan u) =
      "[" ++ ("*" ++ ("**" ++ t ++ "**") ++ "*") ++ "](" ++ u ++ ")"
    ∧ WeChatOfficial.applyWeChatHTMLFormatting t (boldItalicLinkSpan u) =
      WeChatOfficial.aTag u (WeChatOfficial.emTag (WeChatOfficial.strongTag
        (WeChatOfficial.escapeHTML t)))
    ∧ (Substack.applySubstackFormatting t (boldItalicLinkSpan u)).marks =
      [⟨"strong", none⟩, ⟨"em", none⟩, ⟨"link", some u⟩] := by
  have hu' : (u != "") = true := by simpa using hu
  refine ⟨?_, ?_, ?_, ?_, ?_, ?_⟩
  · simp [AlFolio.applyRichTextFormatting, fullSpan, hu']
  · simp [WeChatOfficial.applyWeChatHTMLFormatting, fullSpan, hu']
  · simp [Substack.applySubstackFormatting, fullSpan, hu']
  · simp [AlFolio.applyRichTextFormatting, boldItalicLinkSpan, hu']
  · simp [WeChatOfficial.applyWeChatHTMLFormatting, boldItalicLinkSpan, hu']
  · simp [Substack.applySubstackFormatting, boldItalicLinkSpan, hu']

/-- Closed instance of `C8_formatting_order_amended` at `t = "x"`,
`u = "https://e.com"`. -/
theorem C8_formatting_order_amended_witness :
    AlFolio.applyRichTextFormatting "x" (fullSpan "https://e.com") =
      "[" ++ ("*" ++ ("~~" ++ ("`" ++ ("*" ++ ("**" ++ "x" ++ "**") ++ "*") ++ "`") ++ "~~") ++ "*")
        ++ "](" ++ "https://e.com" ++ ")"
    ∧ (Substack.applySubstackFormatting "x" (fullSpan "https://e.com")).marks =
      [⟨"strong", none⟩, ⟨"em", none⟩, ⟨"code", none⟩, ⟨"strikethrough", none⟩,
        ⟨"link", some "https://e.com"⟩] :=
  ⟨(C8_formatting_order_amended "x" "https://e.com" (by decide)).1,
   (C8_formatting_order_amended "x" "https://e.com" (by decide)).2.2.1⟩

/-! ### Claims about the image processor -/

/-- Two markdown images whose URLs differ only in their query string. -/
def dedupURL1 : String := "https://img.example.com/a.png?tok=1"

def dedupURL2 : String := "https://img.example.com/a.png?tok=2"

def dedupContent : String :=
  "![a](https://img.example.com/a.png?tok=1) and ![b](https://img.example.com/a.png?tok=2)"

theorem dedup_foldl_mem (urls : List String) (acc : List String) (u : String) :
    (u ∈ urls.foldl (fun acc url => if acc.contains url then acc else acc ++ [url]) acc)
      ↔ u ∈ acc ∨ u ∈ urls := by
  induction urls generalizing acc with
  | nil => simp
  | cons a urls ih =>
    by_cases ha : acc.contains a
    · have hmem : a ∈ acc := by simpa using ha
      simp only [List.foldl_cons, ha, if_true, ih, List.mem_cons]
      constructor
      · rintro (h | h)
        · exact Or.inl h
        · exact Or.inr (Or.inr h)
      · rintro (h | h | h)
        · exact Or.inl h
        · exact Or.inl (h ▸ hmem)
        · exact Or.inr h
    · have ha' : acc.contains a = false := by simpa using ha
      simp only [List.foldl_cons, ha', Bool.false_eq_true, if_false, ih, List.mem_append,
        List.mem_singleton, List.mem_cons]
      tauto

/-- C6 counterexample: `deduplicateURLs` deduplicates by exact URL only, so
the two signed-URL variants of the same asset both survive extraction and
produce two downloaded/uploaded resources, not one. -/
theorem C6_url_dedup_counterexample :
    ImgProc.normalizeImageURL dedupURL1 = ImgProc.normalizeImageURL dedupURL2
    ∧ dedupURL1 ≠ dedupURL2
    ∧ ImgProc.extractImageURLs dedupContent = [dedupURL1, dedupURL2]
    ∧ (ImgProc.processContentResources 1700 dedupContent "post1" "/repo").1.length = 2 := by
  exact ⟨by decide, by decide, by decide, by decide⟩

/-- C6 (amended): deduplication keeps exactly the distinct exact URLs (it
preserves membership, and two distinct query-string variants of one asset
both survive it); each surviving URL is downloaded and uploaded as its own
resource.  The query-stripped URL is not used for deduplication — it is
only recorded as an extra key of the rewrite map, pointing at the uploaded
path of the last variant processed. -/
theorem C6_url_dedup_amended :
    (∀ urls u, u ∈ ImgProc.deduplicateURLs urls ↔ u ∈ urls)
    ∧ (∀ u1 u2 : String, u1 ≠ u2 → ImgProc.deduplicateURLs [u1, u2] = [u1, u2])
    ∧ ImgProc.extractImageURLs dedupContent = [dedupURL1, dedupURL2]
    ∧ (ImgProc.processContentResources 1700 dedupContent "post1" "/repo").1.length = 2
    ∧ goGet (ImgProc.processContentResources 1700 dedupContent "post1" "/repo").2 dedupURL1
        = "/assets/img/post1/1700_1.png"
    ∧ goGet (ImgProc.processContentResources 1700 dedupContent "post1" "/repo").2
        (ImgProc.normalizeImageURL dedupURL1) = "/assets/img/post1/1700_2.png" := by
  refine ⟨?_, ?_, by decide, by decide, by decide, by decide⟩
  · intro urls u
    unfold ImgProc.deduplicateURLs
    simpa using dedup_foldl_mem urls [] u
  · intro u1 u2 h
    simp [ImgProc.deduplicateURLs, Ne.symm h]

/-- Closed instance of `C6_url_dedup_amended`: both query variants survive
deduplication, and membership is preserved on a concrete list. -/
theorem C6_url_dedup_amended_witness :
    ImgProc.deduplicateURLs [dedupURL1, dedupURL2] = [dedupURL1, dedupURL2]
    ∧ (dedupURL1 ∈ ImgProc.deduplicateURLs [dedupURL1, dedupURL2] ↔
        dedupURL1 ∈ [dedupURL1, dedupURL2]) :=
  ⟨C6_url_dedup_amended.2.1 dedupURL1 dedupURL2 (by decide),
   C6_url_dedup_amended.1 [dedupURL1, dedupURL2] dedupURL1⟩

set_option maxRecDepth 8192 in
/-- C7 (code bug): `determineLayout` maps a 4-image group to
`FourColumnRow`, but `generateAlFolioImageHTML` has no four-column case —
the group falls through to the single-image fallback, rendering only the
first image in a one-column row instead of the intended four-column row. -/
theorem C7_four_column_layout_bug :
    ImgProc.determineLayout 4 = ImgProc.ImageLayout.fourColumnRow
    ∧ ImgProc.generateAlFolioImageHTML ["a.png", "b.png", "c.png", "d.png"] []
        (ImgProc.determineLayout 4) = ImgProc.singleRowHTML "a.png"
    ∧ ImgProc.generateAlFolioImageHTML ["a.png", "b.png", "c.png", "d.png"] []
        (ImgProc.determineLayout 4)
      ≠ "<div class=\"row mt-3\">\n" ++ ImgProc.figureCell "a.png" ++ ImgProc.figureCell "b.png"
          ++ ImgProc.figureCell "c.png" ++ ImgProc.figureCell "d.png" ++ "</div>" := by
  exact ⟨by decide, by decide, by decide⟩

/-! ### Claims about the adapters' draft/publish composition -/

/-- A successful write of the post file by the al-folio adapter. -/
def alWriteOk : Pub.AlFolioStages :=
  { transformOutcome := .ok "T", processErr := none,
    writePost := .ok { success := true, publishID := "2025-01-01-post.md" } }

/-- A repository where everything works except the final push. -/
def repoPushFail : Pub.RepoOracle :=
  { hasChanges := .ok true, addErr := none, commitErr := none,
    pushErr := some "network error", lastCommitHash := "h", branch := "master",
    localPath := "/repo" }

/-- An enabled config with `auto_publish = "true"`. -/
def autoPubCfg : Pub.PublishConfig :=
  { platformName := "al-folio", enabled := true, config := [("auto_publish", "true")] }

/-- C5 counterexample: the al-folio adapter's `PublishDirect` does not keep
draft success when the publish step fails — with `auto_publish` enabled, a
successful post-file write followed by a failing push yields
`Success = false`, and the publish step is invoked even though the
adapter's composition never consults the flag before calling `Publish`. -/
theorem C5_draft_publish_counterexample :
    goGet autoPubCfg.config "auto_publish" = "true"
    ∧ alWriteOk.writePost = Except.ok { success := true, publishID := "2025-01-01-post.md" }
    ∧ (Pub.alFolioPublishDirect alWriteOk repoPushFail 100 2025 autoPubCfg).1.success = false
    ∧ (Pub.alFolioPublishDirect alWriteOk repoPushFail 100 2025 autoPubCfg).1.error
        = some "failed to push changes: network error"
    ∧ Pub.StageEv.publishCall ∈ (Pub.alFolioPublishDirect alWriteOk repoPushFail 100 2025 autoPubCfg).2 := by
  exact ⟨by decide, rfl, by decide, by decide, by decide⟩

/-- C5 (amended): for the WeChat Official and Substack adapters,
`PublishDirect` with `auto_publish` enabled never downgrades a successful
draft: when the draft call succeeds with a successful result and the
publish call errors, the returned result is the draft result (still
`Success = true`) with the publish error message recorded under the
`publish_error` metadata key; with `auto_publish` not `"true"`, the draft
result is returned and no publish call is made.  (The al-folio adapter
does not follow this pattern — see the counterexample.) -/
theorem C5_draft_publish_amended (token : String) (wst : Pub.WeChatStages)
    (sst : Pub.SubstackStages) (cfgOn cfgOff : Pub.PublishConfig) (tc : String)
    (draft : Pub.PublishResult) (e : String)
    (htoken : token ≠ "") (hwt : wst.transformOutcome = Except.ok tc)
    (hwp : wst.processErr = none) (hwd : wst.saveToDraft = Except.ok draft)
    (hds : draft.success = true) (hwe : wst.publish = Except.error e)
    (hsd : sst.saveToDraft = Except.ok draft) (hse : sst.publish = Except.error e)
    (hon : goGet cfgOn.config "auto_publish" = "true")
    (hoff : goGet cfgOff.config "auto_publish" ≠ "true") :
    ((Pub.wechatPublishDirect token wst cfgOn).1 =
        { draft with metadata := mapSet draft.metadata "publish_error" e }
      ∧ (Pub.wechatPublishDirect token wst cfgOn).1.success = true
      ∧ mapGet? (Pub.wechatPublishDirect token wst cfgOn).1.metadata "publish_error" = some e)
    ∧ ((Pub.wechatPublishDirect token wst cfgOff).1 = draft
      ∧ Pub.StageEv.publishCall ∉ (Pub.wechatPublishDirect token wst cfgOff).2)
    ∧ ((Pub.substackPublishDirect sst cfgOn).1 =
        { draft with metadata := mapSet draft.metadata "publish_error" e }
      ∧ (Pub.substackPublishDirect sst cfgOn).1.success = true
      ∧ mapGet? (Pub.substackPublishDirect sst cfgOn).1.metadata "publish_error" = some e)
    ∧ ((Pub.substackPublishDirect sst cfgOff).1 = draft
      ∧ Pub.StageEv.publishCall ∉ (Pub.substackPublishDirect sst cfgOff).2) := by
  have htok : (token == "") = false := by simpa using htoken
  have honb : (goGet cfgOn.config "auto_publish" == "true") = true := by simp [hon]
  have hoffb : (goGet cfgOff.config "auto_publish" == "true") = false := by simp [hoff]
  refine ⟨⟨?_, ?_, ?_⟩, ⟨?_, ?_⟩, ⟨?_, ?_⟩, ⟨?_, ?_⟩⟩ <;>
    simp [Pub.wechatPublishDirect, Pub.substackPublishDirect, htok, hwt, hwp, hwd, hwe,
      hsd, hse, honb, hoffb, hds, mapGet?_mapSet_self]

/-- Stage outcomes for the closed instance of the amended C5. -/
def wstW : Pub.WeChatStages :=
  { transformOutcome := .ok "T", processErr := none,
    saveToDraft := .ok { success := true, publishID := "d1", metadata := [("media_id", "d1")] },
    publish := .error "api down" }

def sstW : Pub.SubstackStages :=
  { saveToDraft := .ok { success := true, publishID := "d1", metadata := [("media_id", "d1")] },
    publish := .error "api down" }

def draftW : Pub.PublishResult :=
  { success := true, publishID := "d1", metadata := [("media_id", "d1")] }

def offCfg : Pub.PublishConfig :=
  { platformName := "wechat-official", enabled := true, config := [] }

/-- Closed instance of `C5_draft_publish_amended` at concrete stages. -/
theorem C5_draft_publish_amended_witness :
    (Pub.wechatPublishDirect "tok" wstW autoPubCfg).1.success = true
    ∧ mapGet? (Pub.wechatPublishDirect "tok" wstW autoPubCfg).1.metadata "publish_error"
        = some "api down"
    ∧ (Pub.substackPublishDirect sstW offCfg).1 = draftW :=
  ⟨(C5_draft_publish_amended "tok" wstW sstW autoPubCfg offCfg "T" draftW "api down"
      (by decide) rfl rfl rfl rfl rfl rfl rfl (by decide) (by decide)).1.2.1,
   (C5_draft_publish_amended "tok" wstW sstW autoPubCfg offCfg "T" draftW "api down"
      (by decide) rfl rfl rfl rfl rfl rfl rfl (by decide) (by decide)).1.2.2,
   (C5_draft_publish_amended "tok" wstW sstW autoPubCfg offCfg "T" draftW "api down"
      (by decide) rfl rfl rfl rfl rfl rfl rfl (by decide) (by decide)).2.2.2.1⟩

/-! ### Claims about the publish manager -/

namespace Mgr

/-- C1: if a completed job already exists for the (page, platform) pair —
with the platform registered, configured, enabled and its row present —
then `PublishToPlatforms` for that platform creates no job row and changes
nothing in the store, invokes no adapter operation, and returns success
with the existing job's identity as the publish id (and a nil Go error). -/
theorem C1_idempotency (cfg : ManagerCfg) (o : String → AdapterBehavior)
    (dbo : String → Bool) (page : NotionPage) (name : String) (db : DBState)
    (config : PublishConfig) (prow : PlatformRow) (j : JobRow)
    (hreg : cfg.registered.contains name = true)
    (hcfg : mapGet? cfg.configs name = some config)
    (hen : config.enabled = true)
    (hplat : findPlatform db name = some prow)
    (hpid : prow.id ≠ 0)
    (hjob : findCompletedJob db page.id prow.id = some j) :
    publishToPlatforms cfg o dbo page [name] db =
      ({ results := [(name, { success := true, publishID := "existing-job-" ++ toString j.id })],
         db := db, trace := [] }, none) := by
  have hpidb : (prow.id == 0) = false := by simpa using hpid
  have hmem : name ∈ cfg.registered := by simpa using hreg
  simp [publishToPlatforms, processPlatform, getPlatformID, hmem, hcfg, hen, hplat,
    hpidb, hjob, mapSet]

/-- A store that already holds a completed job for page 1 on platform 1. -/
def jobC1 : JobRow :=
  { id := 5, pageID := 1, platformID := 1, status := "completed",
    content := "body", error := "" }

def dbC1 : DBState :=
  { jobs := [jobC1],
    platforms := [{ id := 1, name := "al-folio", enabled := true }],
    nextJobID := 6, nextPlatformID := 2 }

def cfgC1 : ManagerCfg :=
  { registered := ["al-folio"],
    configs := [("al-folio", { platformName := "al-folio", enabled := true, config := [] })] }

def behC1 : AdapterBehavior :=
  { initErr := none, transformOutcome := .ok "T", processOutcome := .ok "P",
    saveToDraft := .ok { success := true }, publishDirect := .ok { success := true } }

def pageC1 : NotionPage := { id := 1, notionID := "n1", content := "body" }

/-- Closed instance of `C1_idempotency` on a store holding job 5 as
completed. -/
theorem C1_idempotency_witness :
    publishToPlatforms cfgC1 (fun _ => behC1) (fun _ => false) pageC1 ["al-folio"] dbC1 =
      ({ results := [("al-folio", { success := true, publishID := "existing-job-5" })],
         db := dbC1, trace := [] }, none) :=
  C1_idempotency cfgC1 (fun _ => behC1) (fun _ => false) pageC1 "al-folio" dbC1
    { platformName := "al-folio", enabled := true, config := [] }
    { id := 1, name := "al-folio", enabled := true } jobC1
    (by decide) (by decide) rfl (by decide) (by decide) (by decide)

end Mgr


namespace Mgr

/-- The label-collecting fold of `PublishToAll` restarted from any
accumulator just appends to it. -/
theorem mappedFold_acc (ls : List String) : ∀ acc : List String,
    ls.foldl
      (fun acc notionPlatform =>
        if mapPlatformName notionPlatform != "" then
          acc ++ [mapPlatformName notionPlatform]
        else acc) acc
      = acc ++ ls.foldl
      (fun acc notionPlatform =>
        if mapPlatformName notionPlatform != "" then
          acc ++ [mapPlatformName notionPlatform]
        else acc) [] := by
  induction ls with
  | nil =>
    intro acc
    simp
  | cons l ls ih =>
    intro acc
    rw [List.foldl_cons, List.foldl_cons]
    by_cases h : (mapPlatformName l != "") = true
    · simp only [h, if_true, List.nil_append]
      rw [ih (acc ++ [mapPlatformName l]), ih [mapPlatformName l]]
      simp [List.append_assoc]
    · have h' : (mapPlatformName l != "") = false := by simpa using h
      simp only [h', Bool.false_eq_true, if_false]
      exact ih acc

theorem mappedPlatforms_cons (l : String) (ls : List String) :
    mappedPlatforms (l :: ls) =
      (if mapPlatformName l != "" then [mapPlatformName l] else []) ++ mappedPlatforms ls := by
  unfold mappedPlatforms
  rw [List.foldl_cons, mappedFold_acc]
  by_cases h : (mapPlatformName l != "") = true
  · simp only [h, if_true, List.nil_append]
  · have h' : (mapPlatformName l != "") = false := by simpa using h
    simp only [h', Bool.false_eq_true, if_false, List.nil_append]

theorem mapped_mem (l : String) (ls : List String) (hmem : l ∈ ls)
    (hne : mapPlatformName l ≠ "") : mapPlatformName l ∈ mappedPlatforms ls := by
  induction ls with
  | nil => simp at hmem
  | cons a ls ih =>
    rw [mappedPlatforms_cons]
    rcases List.mem_cons.mp hmem with h | h
    · subst h
      have hb : (mapPlatformName l != "") = true := by simpa using hne
      simp [hb]
    · exact List.mem_append_right _ (ih h)

theorem mapped_nil (ls : List String) (h : ∀ l ∈ ls, mapPlatformName l = "") :
    mappedPlatforms ls = [] := by
  induction ls with
  | nil => rfl
  | cons a ls ih =>
    rw [mappedPlatforms_cons]
    have ha : mapPlatformName a = "" := h a (by simp)
    have hb : (mapPlatformName a != "") = false := by simp [ha]
    simp only [hb, Bool.false_eq_true, if_false, List.nil_append]
    exact ih (fun l hl => h l (by simp [hl]))

/-- The keys of the Notion-label lookup table. -/
def platformMapKeys : List String :=
  ["Blog", "blog", "Jekyll", "jekyll", "微信公众号", "WeChat", "wechat",
   "Substack", "substack", "al-folio", "wechat-official"]

/-- C9: the declared labels are mapped through the lookup table (all eleven
entries behave as listed, and labels outside the table map to `""`); a
label mapping to `""` is dropped from the dispatch list rather than
raising an error; every label that does map is dispatched; and when no
declared label maps, `PublishToAll` dispatches to every registered
platform. -/
theorem C9_platform_label_mapping (cfg : ManagerCfg) (o : String → AdapterBehavior)
    (dbo : String → Bool) (page : NotionPage) (db : DBState) :
    (mapPlatformName "Blog" = "al-folio" ∧ mapPlatformName "blog" = "al-folio"
      ∧ mapPlatformName "Jekyll" = "al-folio" ∧ mapPlatformName "jekyll" = "al-folio"
      ∧ mapPlatformName "微信公众号" = "wechat-official"
      ∧ mapPlatformName "WeChat" = "wechat-official"
      ∧ mapPlatformName "wechat" = "wechat-official"
      ∧ mapPlatformName "Substack" = "substack" ∧ mapPlatformName "substack" = "substack"
      ∧ mapPlatformName "al-folio" = "al-folio"
      ∧ mapPlatformName "wechat-official" = "wechat-official")
    ∧ (∀ l, l ∉ platformMapKeys → mapPlatformName l = "")
    ∧ (∀ ls l, mapPlatformName l = "" → mappedPlatforms (ls ++ [l]) = mappedPlatforms ls)
    ∧ (∀ l ∈ page.platforms, mapPlatformName l ≠ "" →
        mapPlatformName l ∈ effectivePlatforms cfg page)
    ∧ ((∀ l ∈ page.platforms, mapPlatformName l = "") →
        publishToAll cfg o dbo page db = publishToPlatforms cfg o dbo page cfg.registered db) := by
  refine ⟨by decide, ?_, ?_, ?_, ?_⟩
  · intro l hl
    simp only [platformMapKeys, List.mem_cons, not_or] at hl
    obtain ⟨h1, h2, h3, h4, h5, h6, h7, h8, h9, h10, h11, -⟩ := hl
    have b1 : ("Blog" == l) = false := by simp [Ne.symm h1]
    have b2 : ("blog" == l) = false := by simp [Ne.symm h2]
    have b3 : ("Jekyll" == l) = false := by simp [Ne.symm h3]
    have b4 : ("jekyll" == l) = false := by simp [Ne.symm h4]
    have b5 : ("微信公众号" == l) = false := by simp [Ne.symm h5]
    have b6 : ("WeChat" == l) = false := by simp [Ne.symm h6]
    have b7 : ("wechat" == l) = false := by simp [Ne.symm h7]
    have b8 : ("Substack" == l) = false := by simp [Ne.symm h8]
    have b9 : ("substack" == l) = false := by simp [Ne.symm h9]
    have b10 : ("al-folio" == l) = false := by simp [Ne.symm h10]
    have b11 : ("wechat-official" == l) = false := by simp [Ne.symm h11]
    simp [mapPlatformName, mapGet?, List.find?, b1, b2, b3, b4, b5, b6, b7, b8, b9,
      b10, b11]
  · intro ls l hl
    have h' : (mapPlatformName l != "") = false := by simp [hl]
    simp only [mappedPlatforms, List.foldl_append, List.foldl_cons, List.foldl_nil, h',
      Bool.false_eq_true, if_false]
  · intro l hmem hne
    have hmem' : mapPlatformName l ∈ mappedPlatforms page.platforms :=
      mapped_mem l page.platforms hmem hne
    have hne2 : mappedPlatforms page.platforms ≠ [] := by
      intro hc
      rw [hc] at hmem'
      simp at hmem'
    have hlen : ((mappedPlatforms page.platforms).length == 0) = false := by
      simpa [List.length_eq_zero] using hne2
    simp [effectivePlatforms, hlen, hmem']
  · intro hall
    have hmap := mapped_nil page.platforms hall
    unfold publishToAll effectivePlatforms
    rw [hmap]
    simp

/-- Closed instance of `C9_platform_label_mapping`: an unknown label maps to
`""`, and a page declaring only unknown labels falls back to every
registered platform. -/
theorem C9_platform_label_mapping_witness :
    mapPlatformName "Mastodon" = ""
    ∧ publishToAll cfgC1 (fun _ => behC1) (fun _ => false)
        { id := 1, notionID := "n1", content := "body", platforms := ["Mastodon"] } dbC1
      = publishToPlatforms cfgC1 (fun _ => behC1) (fun _ => false)
        { id := 1, notionID := "n1", content := "body", platforms := ["Mastodon"] }
        cfgC1.registered dbC1 :=
  ⟨(C9_platform_label_mapping cfgC1 (fun _ => behC1) (fun _ => false)
      { id := 1, notionID := "n1", content := "body", platforms := ["Mastodon"] } dbC1).2.1
      "Mastodon" (by decide),
   (C9_platform_label_mapping cfgC1 (fun _ => behC1) (fun _ => false)
      { id := 1, notionID := "n1", content := "body", platforms := ["Mastodon"] } dbC1).2.2.2.2
      (by
        intro l hl
        simp only [List.mem_singleton] at hl
        subst hl
        decide)⟩

end Mgr

namespace Mgr

/-- An unregistered platform: the error is recorded in the map and nothing
else changes. -/
theorem processPlatform_not_registered (cfg : ManagerCfg) (o : String → AdapterBehavior)
    (dbo : String → Bool) (page : NotionPage) (c : String) (st : MgrState) (q : String)
    (h : cfg.registered.contains q = false) :
    processPlatform cfg o dbo page c st q =
      { st with results := mapSet st.results q (failResult ("publisher for platform " ++ q ++ " not found")) } := by
  unfold processPlatform
  rw [h]
  rfl

/-- A platform with no config entry: the error is recorded in the map and
nothing else changes. -/
theorem processPlatform_no_config (cfg : ManagerCfg) (o : String → AdapterBehavior)
    (dbo : String → Bool) (page : NotionPage) (c : String) (st : MgrState) (q : String)
    (hreg : cfg.registered.contains q = true)
    (hcfg : mapGet? cfg.configs q = none) :
    processPlatform cfg o dbo page c st q =
      { st with results := mapSet st.results q (failResult ("config for platform " ++ q ++ " not found")) } := by
  unfold processPlatform
  rw [hreg, hcfg]
  rfl

/-- A disabled platform: the error is recorded in the map and nothing else
changes. -/
theorem processPlatform_disabled (cfg : ManagerCfg) (o : String → AdapterBehavior)
    (dbo : String → Bool) (page : NotionPage) (c : String) (st : MgrState) (q : String)
    (config : PublishConfig)
    (hreg : cfg.registered.contains q = true)
    (hcfg : mapGet? cfg.configs q = some config)
    (hdis : config.enabled = false) :
    processPlatform cfg o dbo page c st q =
      { st with results := mapSet st.results q (failResult ("platform " ++ q ++ " is disabled")) } := by
  unfold processPlatform
  rw [hreg, hcfg]
  dsimp only
  rw [hdis]
  rfl

/-- A failing lazy platform-row create: id 0 is reported as an in-map
failure and nothing else changes. -/
theorem processPlatform_pid0 (cfg : ManagerCfg) (o : String → AdapterBehavior)
    (dbo : String → Bool) (page : NotionPage) (c : String) (st : MgrState) (q : String)
    (config : PublishConfig)
    (hreg : cfg.registered.contains q = true)
    (hcfg : mapGet? cfg.configs q = some config)
    (hen : config.enabled = true)
    (hplat : findPlatform st.db q = none)
    (hdbo : dbo q = true) :
    processPlatform cfg o dbo page c st q =
      { st with results := mapSet st.results q (failResult ("failed to get platform ID for " ++ q)) } := by
  unfold processPlatform
  rw [hreg, hcfg]
  dsimp only
  rw [hen]
  simp only [getPlatformID, hplat, hdbo, if_true, Bool.not_true, Bool.false_eq_true,
    if_false]
  rfl

/-- Every branch of one loop iteration records exactly one entry, keyed by
the platform just processed. -/
theorem processPlatform_sets (cfg : ManagerCfg) (o : String → AdapterBehavior)
    (dbo : String → Bool) (page : NotionPage) (c : String) (st : MgrState) (q : String) :
    ∃ r, (processPlatform cfg o dbo page c st q).results = mapSet st.results q r := by
  unfold processPlatform
  dsimp only
  repeat' split
  all_goals exact ⟨_, rfl⟩

theorem keys_mapSet {α : Type} (m : List (String × α)) (k : String) (v : α) :
    (mapSet m k v).map Prod.fst =
      if m.any (fun kv => kv.1 == k) then m.map Prod.fst else m.map Prod.fst ++ [k] := by
  unfold mapSet
  by_cases h : m.any (fun kv => kv.1 == k) = true
  · rw [if_pos h, if_pos h, List.map_map]
    apply List.map_congr_left
    intro kv _
    by_cases hk : kv.1 = k
    · simp [hk]
    · simp [hk]
  · rw [if_neg h, if_neg h]
    simp

theorem nodup_keys_mapSet {α : Type} (m : List (String × α)) (k : String) (v : α)
    (h : (m.map Prod.fst).Nodup) : ((mapSet m k v).map Prod.fst).Nodup := by
  rw [keys_mapSet]
  by_cases hmem : m.any (fun kv => kv.1 == k) = true
  · rwa [if_pos hmem]
  · rw [if_neg hmem]
    have hk : k ∉ m.map Prod.fst := by
      intro hc
      rcases List.mem_map.mp hc with ⟨kv, hkv, hfst⟩
      exact hmem (List.any_eq_true.mpr ⟨kv, hkv, by simp [hfst]⟩)
    simp [List.nodup_append, h, hk]

theorem foldl_results_total (cfg : ManagerCfg) (o : String → AdapterBehavior)
    (dbo : String → Bool) (page : NotionPage) (c : String) (platforms : List String) :
    ∀ (st : MgrState) (q : String),
    (mapGet? (platforms.foldl (processPlatform cfg o dbo page c) st).results q).isSome
      = ((mapGet? st.results q).isSome || platforms.contains q) := by
  induction platforms with
  | nil =>
    intro st q
    simp
  | cons p ps ih =>
    intro st q
    rw [List.foldl_cons, ih]
    obtain ⟨r, hr⟩ := processPlatform_sets cfg o dbo page c st p
    rw [hr]
    by_cases hq : q = p
    · subst hq
      simp [mapGet?_mapSet_self]
    · rw [mapGet?_mapSet_ne _ _ _ _ hq]
      simp [List.contains_cons, hq]

theorem foldl_results_nodup (cfg : ManagerCfg) (o : String → AdapterBehavior)
    (dbo : String → Bool) (page : NotionPage) (c : String) (platforms : List String) :
    ∀ st : MgrState, ((st.results.map Prod.fst).Nodup) →
    (((platforms.foldl (processPlatform cfg o dbo page c) st).results.map Prod.fst)).Nodup := by
  induction platforms with
  | nil =>
    intro st h
    simpa using h
  | cons p ps ih =>
    intro st h
    rw [List.foldl_cons]
    apply ih
    obtain ⟨r, hr⟩ := processPlatform_sets cfg o dbo page c st p
    rw [hr]
    exact nodup_keys_mapSet st.results p r h

end Mgr

namespace Mgr

/-- A failing `Initialize`: the error is recorded in the map (the job row,
created just before, is marked failed in the store). -/
theorem processPlatform_init_error (cfg : ManagerCfg) (o : String → AdapterBehavior)
    (dbo : String → Bool) (page : NotionPage) (c : String) (st : MgrState) (q : String)
    (config : PublishConfig) (prow : PlatformRow) (e : String)
    (hreg : cfg.registered.contains q = true)
    (hcfg : mapGet? cfg.configs q = some config)
    (hen : config.enabled = true)
    (hplat : findPlatform st.db q = some prow)
    (hpid : prow.id ≠ 0)
    (hnone : findCompletedJob st.db page.id prow.id = none)
    (hinit : (o q).initErr = some e) :
    (processPlatform cfg o dbo page c st q).results = mapSet st.results q (failResult e) := by
  have hpidb : (prow.id == 0) = false := by simpa using hpid
  unfold processPlatform
  rw [hreg, hcfg]
  dsimp only
  rw [hen]
  simp only [getPlatformID, hplat, hpidb, hnone, hinit, Bool.not_true, Bool.false_eq_true,
    if_false]

/-- A failing `PublishDirect` (non-nil Go error): the error is recorded in
the map. -/
theorem processPlatform_publish_error (cfg : ManagerCfg) (o : String → AdapterBehavior)
    (dbo : String → Bool) (page : NotionPage) (c : String) (st : MgrState) (q : String)
    (config : PublishConfig) (prow : PlatformRow) (e : String)
    (hreg : cfg.registered.contains q = true)
    (hcfg : mapGet? cfg.configs q = some config)
    (hen : config.enabled = true)
    (hplat : findPlatform st.db q = some prow)
    (hpid : prow.id ≠ 0)
    (hnone : findCompletedJob st.db page.id prow.id = none)
    (hinit : (o q).initErr = none)
    (hpub : (o q).publishDirect = Except.error e) :
    (processPlatform cfg o dbo page c st q).results = mapSet st.results q (failResult e) := by
  have hpidb : (prow.id == 0) = false := by simpa using hpid
  unfold processPlatform
  rw [hreg, hcfg]
  dsimp only
  rw [hen]
  simp only [getPlatformID, hplat, hpidb, hnone, hinit, hpub, Bool.not_true,
    Bool.false_eq_true, if_false]

/-- C10: `PublishToPlatforms` always returns a nil Go error and a results
map with exactly one entry per distinct requested platform name; every
failure mode — unregistered publisher, missing config, disabled platform,
missing platform id, initialization error, publish error — is recorded
in that map as a `Success = false` result carrying a non-nil error, rather
than aborting the call. -/
theorem C10_total_batch_result (cfg : ManagerCfg) (o : String → AdapterBehavior)
    (dbo : String → Bool) (page : NotionPage) (platforms : List String) (db : DBState) :
    (publishToPlatforms cfg o dbo page platforms db).2 = none
    ∧ ((publishToPlatforms cfg o dbo page platforms db).1.results.map Prod.fst).Nodup
    ∧ (∀ q, (mapGet? (publishToPlatforms cfg o dbo page platforms db).1.results q).isSome
        = platforms.contains q)
    ∧ (∀ e : String, (failResult e).success = false ∧ (failResult e).error = some e)
    ∧ (∀ st q, cfg.registered.contains q = false →
        (processPlatform cfg o dbo page (fromNotionPage page).content st q).results
          = mapSet st.results q (failResult ("publisher for platform " ++ q ++ " not found")))
    ∧ (∀ st q, cfg.registered.contains q = true → mapGet? cfg.configs q = none →
        (processPlatform cfg o dbo page (fromNotionPage page).content st q).results
          = mapSet st.results q (failResult ("config for platform " ++ q ++ " not found")))
    ∧ (∀ st q config, cfg.registered.contains q = true →
        mapGet? cfg.configs q = some config → config.enabled = false →
        (processPlatform cfg o dbo page (fromNotionPage page).content st q).results
          = mapSet st.results q (failResult ("platform " ++ q ++ " is disabled")))
    ∧ (∀ st q config, cfg.registered.contains q = true →
        mapGet? cfg.configs q = some config → config.enabled = true →
        findPlatform st.db q = none → dbo q = true →
        (processPlatform cfg o dbo page (fromNotionPage page).content st q).results
          = mapSet st.results q (failResult ("failed to get platform ID for " ++ q)))
    ∧ (∀ st q config prow e, cfg.registered.contains q = true →
        mapGet? cfg.configs q = some config → config.enabled = true →
        findPlatform st.db q = some prow → prow.id ≠ 0 →
        findCompletedJob st.db page.id prow.id = none → (o q).initErr = some e →
        (processPlatform cfg o dbo page (fromNotionPage page).content st q).results
          = mapSet st.results q (failResult e))
    ∧ (∀ st q config prow e, cfg.registered.contains q = true →
        mapGet? cfg.configs q = some config → config.enabled = true →
        findPlatform st.db q = some prow → prow.id ≠ 0 →
        findCompletedJob st.db page.id prow.id = none → (o q).initErr = none →
        (o q).publishDirect = Except.error e →
        (processPlatform cfg o dbo page (fromNotionPage page).content st q).results
          = mapSet st.results q (failResult e)) := by
  refine ⟨rfl, ?_, ?_, ?_, ?_, ?_, ?_, ?_, ?_, ?_⟩
  · exact foldl_results_nodup cfg o dbo page (fromNotionPage page).content platforms
      { results := [], db := db, trace := [] } (by simp)
  · intro q
    have := foldl_results_total cfg o dbo page (fromNotionPage page).content platforms
      { results := [], db := db, trace := [] } q
    simpa [publishToPlatforms, mapGet?] using this
  · intro e
    exact ⟨rfl, rfl⟩
  · intro st q h
    rw [processPlatform_not_registered cfg o dbo page _ st q h]
  · intro st q h1 h2
    rw [processPlatform_no_config cfg o dbo page _ st q h1 h2]
  · intro st q config h1 h2 h3
    rw [processPlatform_disabled cfg o dbo page _ st q config h1 h2 h3]
  · intro st q config h1 h2 h3 h4 h5
    rw [processPlatform_pid0 cfg o dbo page _ st q config h1 h2 h3 h4 h5]
  · intro st q config prow e h1 h2 h3 h4 h5 h6 h7
    exact processPlatform_init_error cfg o dbo page _ st q config prow e h1 h2 h3 h4 h5 h6 h7
  · intro st q config prow e h1 h2 h3 h4 h5 h6 h7 h8
    exact processPlatform_publish_error cfg o dbo page _ st q config prow e h1 h2 h3 h4 h5 h6 h7 h8

/-- Closed instance of `C10_total_batch_result`: a batch with an unknown
platform still yields a nil Go error and one entry per requested name. -/
theorem C10_total_batch_result_witness :
    (publishToPlatforms cfgC1 (fun _ => behC1) (fun _ => false) pageC1
        ["nope", "al-folio"] initialDB).2 = none
    ∧ (mapGet? (publishToPlatforms cfgC1 (fun _ => behC1) (fun _ => false) pageC1
        ["nope", "al-folio"] initialDB).1.results "nope").isSome
      = (["nope", "al-folio"].contains "nope") :=
  ⟨(C10_total_batch_result cfgC1 (fun _ => behC1) (fun _ => false) pageC1
      ["nope", "al-folio"] initialDB).1,
   (C10_total_batch_result cfgC1 (fun _ => behC1) (fun _ => false) pageC1
      ["nope", "al-folio"] initialDB).2.2.1 "nope"⟩

end Mgr

namespace Mgr

/-- The inductive invariant of the job store under batch dispatch: row ids
are fresh and unique, every row's status is one of the three the batch
path writes, and no (page, platform) pair has two completed rows. -/
def StrongInv (db : DBState) : Prop :=
  (∀ j ∈ db.jobs, j.id < db.nextJobID)
  ∧ (db.jobs.map (fun j => j.id)).Nodup
  ∧ (∀ j ∈ db.jobs, j.status = "in_progress" ∨ j.status = "completed" ∨ j.status = "failed")
  ∧ (∀ pg pid, completedCount db pg pid ≤ 1)

theorem strongInv_initial : StrongInv initialDB := by
  refine ⟨?_, ?_, ?_, ?_⟩ <;> simp [initialDB, completedCount]

theorem getPlatformID_jobs (db : DBState) (q : String) (b : Bool) :
    ((getPlatformID db q b).2).jobs = db.jobs
    ∧ ((getPlatformID db q b).2).nextJobID = db.nextJobID := by
  unfold getPlatformID
  repeat' split
  all_goals exact ⟨rfl, rfl⟩

theorem strongInv_of_eq (db db' : DBState) (hj : db'.jobs = db.jobs)
    (hn : db'.nextJobID = db.nextJobID) (h : StrongInv db) : StrongInv db' := by
  unfold StrongInv completedCount at *
  rw [hj, hn]
  exact h

/-- Creating an `in_progress` row and then settling it to a terminal status
preserves the invariant; settling to `completed` requires that the pair had
no completed row before. -/
def settledRow (db : DBState) (pg pid : Nat) (c status e : String) : JobRow :=
  { id := db.nextJobID, pageID := pg, platformID := pid,
    status := status, content := c, error := e }

theorem create_update_inv (db : DBState) (pg pid : Nat) (c status e : String)
    (h : StrongInv db)
    (hstatus : status = "completed" ∨ status = "failed")
    (hcomp : status = "completed" → findCompletedJob db pg pid = none) :
    StrongInv (updateJobStatus (createJob db pg pid "in_progress" c).2
      (createJob db pg pid "in_progress" c).1.id status e) := by
  obtain ⟨hbound, hnodup, hstatusOK, hcount⟩ := h
  have hmap : db.jobs.map
      (fun j => if j.id == db.nextJobID then { j with status := status, error := e } else j)
      = db.jobs := by
    conv_rhs => rw [← List.map_id db.jobs]
    apply List.map_congr_left
    intro j hj
    have hne : j.id ≠ db.nextJobID := Nat.ne_of_lt (hbound j hj)
    simp [hne]
  have hjobs : (updateJobStatus (createJob db pg pid "in_progress" c).2
      (createJob db pg pid "in_progress" c).1.id status e).jobs
      = db.jobs ++ [settledRow db pg pid c status e] := by
    simp only [createJob, updateJobStatus, List.map_append, hmap, List.map_cons,
      List.map_nil, beq_self_eq_true, if_true, settledRow]
  have hnext : (updateJobStatus (createJob db pg pid "in_progress" c).2
      (createJob db pg pid "in_progress" c).1.id status e).nextJobID = db.nextJobID + 1 := rfl
  refine ⟨?_, ?_, ?_, ?_⟩
  · intro j hj
    rw [hjobs] at hj
    rw [hnext]
    rcases List.mem_append.mp hj with hmem | hmem
    · exact Nat.lt_succ_of_lt (hbound j hmem)
    · rcases List.mem_singleton.mp hmem with rfl
      exact Nat.lt_succ_self _
  · rw [hjobs, List.map_append]
    simp only [List.map_cons, List.map_nil]
    rw [List.nodup_append]
    refine ⟨hnodup, List.nodup_singleton _, ?_⟩
    intro a ha hb
    rcases List.mem_singleton.mp hb with rfl
    rcases List.mem_map.mp ha with ⟨j, hj, hid⟩
    exact Nat.ne_of_lt (hbound j hj) hid
  · intro j hj
    rw [hjobs] at hj
    rcases List.mem_append.mp hj with hmem | hmem
    · exact hstatusOK j hmem
    · rcases List.mem_singleton.mp hmem with rfl
      rcases hstatus with hs | hs
      · exact Or.inr (Or.inl hs)
      · exact Or.inr (Or.inr hs)
  · intro pg' pid'
    unfold completedCount
    rw [hjobs, List.filter_append, List.length_append]
    by_cases hp : ((pg == pg') && (pid == pid') && (status == "completed")) = true
    · have hpq : pg = pg' ∧ pid = pid' ∧ status = "completed" := by
        simp only [Bool.and_eq_true, beq_iff_eq] at hp
        exact ⟨hp.1.1, hp.1.2, hp.2⟩
      obtain ⟨hpg, hpid, hst⟩ := hpq
      have hfnone : findCompletedJob db pg pid = none := hcomp hst
      have hfilter : db.jobs.filter (fun j =>
          j.pageID == pg' && j.platformID == pid' && j.status == "completed") = [] := by
        rw [List.filter_eq_nil_iff]
        intro j hj
        have := List.find?_eq_none.mp hfnone j hj
        rw [← hpg, ← hpid]
        simpa using this
      rw [hfilter]
      have hone : (List.filter (fun (j : JobRow) =>
          j.pageID == pg' && j.platformID == pid' && j.status == "completed")
          [settledRow db pg pid c status e]).length ≤ 1 := by
        simp only [settledRow, List.filter]
        split <;> simp
      simpa using hone
    · have hp' : ((pg == pg') && (pid == pid') && (status == "completed")) = false := by
        simpa using hp
      have hfilter : (List.filter (fun (j : JobRow) =>
          j.pageID == pg' && j.platformID == pid' && j.status == "completed")
          [settledRow db pg pid c status e]) = [] := by
        simp only [settledRow, List.filter, hp']
      rw [hfilter]
      simpa using hcount pg' pid'

end Mgr

namespace Mgr

/-- One loop iteration preserves the store invariant. -/
theorem processPlatform_inv (cfg : ManagerCfg) (o : String → AdapterBehavior)
    (dbo : String → Bool) (page : NotionPage) (c : String) (st : MgrState) (q : String)
    (h : StrongInv st.db) : StrongInv (processPlatform cfg o dbo page c st q).db := by
  unfold processPlatform
  dsimp only
  repeat' split
  all_goals dsimp only
  all_goals first
    | exact h
    | exact strongInv_of_eq st.db _ (getPlatformID_jobs st.db q (dbo q)).1
        (getPlatformID_jobs st.db q (dbo q)).2 h
    | (apply create_update_inv _ _ _ _ _ _ (strongInv_of_eq st.db _
        (getPlatformID_jobs st.db q (dbo q)).1 (getPlatformID_jobs st.db q (dbo q)).2 h)
        (Or.inl rfl)
       intro _
       assumption)
    | (apply create_update_inv _ _ _ _ _ _ (strongInv_of_eq st.db _
        (getPlatformID_jobs st.db q (dbo q)).1 (getPlatformID_jobs st.db q (dbo q)).2 h)
        (Or.inr rfl)
       intro hc
       exact absurd hc (by decide))

theorem publishToPlatforms_inv (cfg : ManagerCfg) (o : String → AdapterBehavior)
    (dbo : String → Bool) (page : NotionPage) (c : String) (platforms : List String) :
    ∀ st : MgrState, StrongInv st.db →
      StrongInv ((platforms.foldl (processPlatform cfg o dbo page c) st).db) := by
  induction platforms with
  | nil => intro st h; simpa using h
  | cons p ps ih =>
    intro st h
    rw [List.foldl_cons]
    exact ih _ (processPlatform_inv cfg o dbo page c st p h)

/-- Whether an operation is one of the two batch entry points. -/
def MgrOp.isBatch : MgrOp → Bool
  | .toAll _ _ _ => true
  | .toPlatforms _ _ _ _ => true
  | .single _ _ _ _ _ => false

theorem runOp_inv (cfg : ManagerCfg) (db : DBState) (op : MgrOp)
    (hop : op.isBatch = true) (h : StrongInv db) : StrongInv (runOp cfg db op) := by
  cases op with
  | toAll o dbo page =>
    exact publishToPlatforms_inv cfg o dbo page _ _ { results := [], db := db, trace := [] } h
  | toPlatforms o dbo page platforms =>
    exact publishToPlatforms_inv cfg o dbo page _ _ { results := [], db := db, trace := [] } h
  | single o dbo page name isDraft => cases hop

theorem runOps_inv (cfg : ManagerCfg) (ops : List MgrOp) :
    ∀ db : DBState, (∀ op ∈ ops, op.isBatch = true) → StrongInv db →
      StrongInv (runOps cfg db ops) := by
  induction ops with
  | nil => intro db _ h; simpa [runOps] using h
  | cons op ops ih =>
    intro db hops h
    rw [runOps, List.foldl_cons]
    exact ih _ (fun o ho => hops o (by simp [ho])) (runOp_inv cfg db op (hops op (by simp)) h)

/-- C2 (amended): across any sequence of `PublishToAll` /
`PublishToPlatforms` operations from a fresh store, every (page, platform)
pair has at most one completed job row, and every row's status is
`in_progress`, `completed` or `failed` (a subset of the claimed status
set).  `PublishSinglePlatform` is excluded — see the counterexample. -/
theorem C2_at_most_one_completed (cfg : ManagerCfg) (ops : List MgrOp)
    (hops : ∀ op ∈ ops, op.isBatch = true) :
    (∀ pg pid, completedCount (runOps cfg initialDB ops) pg pid ≤ 1)
    ∧ (∀ j ∈ (runOps cfg initialDB ops).jobs,
        j.status = "in_progress" ∨ j.status = "completed" ∨ j.status = "failed") := by
  have h := runOps_inv cfg ops initialDB hops strongInv_initial
  exact ⟨h.2.2.2, h.2.2.1⟩

/-- Closed instance of `C2_at_most_one_completed` after one batch dispatch. -/
theorem C2_at_most_one_completed_witness :
    completedCount (runOps cfgC1 initialDB
      [MgrOp.toPlatforms (fun _ => behC1) (fun _ => false) pageC1 ["al-folio"]]) 1 1 ≤ 1 :=
  (C2_at_most_one_completed cfgC1
    [MgrOp.toPlatforms (fun _ => behC1) (fun _ => false) pageC1 ["al-folio"]]
    (by intro op hop; simp only [List.mem_singleton] at hop; subst hop; rfl)).1 1 1

/-- The store after two non-draft `PublishSinglePlatform` calls for the
same page and platform. -/
def dbTwoSingles : DBState :=
  (publishSinglePlatform cfgC1 (fun _ => behC1) (fun _ => false) pageC1 "al-folio" false
    ((publishSinglePlatform cfgC1 (fun _ => behC1) (fun _ => false) pageC1 "al-folio" false
      initialDB).2)).2

/-- The store after one draft `PublishSinglePlatform` call. -/
def dbOneDraft : DBState :=
  (publishSinglePlatform cfgC1 (fun _ => behC1) (fun _ => false) pageC1 "al-folio" true
    initialDB).2

/-- C2 counterexample: `PublishSinglePlatform` performs no prior-completed
check, so two successful non-draft calls leave two completed rows for the
same (page, platform) pair; and a draft call writes status `draft`, which
lies outside the claimed status set. -/
theorem C2_at_most_one_completed_counterexample :
    completedCount dbTwoSingles 1 1 = 2
    ∧ dbOneDraft.jobs.map (fun j => j.status) = ["draft"]
    ∧ ("draft" ∈ ["pending", "in_progress", "completed", "failed"]) = False := by
  refine ⟨by decide, by decide, by simp⟩

end Mgr

namespace Mgr

/-- The result one loop iteration records for `q`, as a function of the
store alone (the accumulated results and trace never influence it). -/
def stepRes (cfg : ManagerCfg) (o : String → AdapterBehavior) (dbo : String → Bool)
    (page : NotionPage) (db : DBState) (q : String) : PublishResult :=
  if !(cfg.registered.contains q) then
    failResult ("publisher for platform " ++ q ++ " not found")
  else
    match mapGet? cfg.configs q with
    | none => failResult ("config for platform " ++ q ++ " not found")
    | some config =>
      if !config.enabled then failResult ("platform " ++ q ++ " is disabled")
      else
        let pid := (getPlatformID db q (dbo q)).1
        let db1 := (getPlatformID db q (dbo q)).2
        if pid == 0 then failResult ("failed to get platform ID for " ++ q)
        else
          match findCompletedJob db1 page.id pid with
          | some existingJob =>
            { success := true, publishID := "existing-job-" ++ toString existingJob.id }
          | none =>
            match (o q).initErr with
            | some e => failResult e
            | none =>
              match (o q).publishDirect with
              | .error e => failResult e
              | .ok result => result

/-- The store after one loop iteration for `q`, as a function of the store
alone. -/
def stepDB (cfg : ManagerCfg) (o : String → AdapterBehavior) (dbo : String → Bool)
    (page : NotionPage) (c : String) (db : DBState) (q : String) : DBState :=
  if !(cfg.registered.contains q) then db
  else
    match mapGet? cfg.configs q with
    | none => db
    | some config =>
      if !config.enabled then db
      else
        let pid := (getPlatformID db q (dbo q)).1
        let db1 := (getPlatformID db q (dbo q)).2
        if pid == 0 then db1
        else
          match findCompletedJob db1 page.id pid with
          | some _ => db1
          | none =>
            let job := (createJob db1 page.id pid "in_progress" c).1
            let db2 := (createJob db1 page.id pid "in_progress" c).2
            match (o q).initErr with
            | some e => updateJobStatus db2 job.id "failed" e
            | none =>
              match (o q).publishDirect with
              | .error e => updateJobStatus db2 job.id "failed" e
              | .ok result =>
                if result.success then updateJobStatus db2 job.id "completed" ""
                else updateJobStatus db2 job.id "failed"
                  (match result.error with
                   | some m => m
                   | none => "unknown error")

/-- The adapter invocations one loop iteration appends for `q`, as a
function of the store alone. -/
def stepTraceDelta (cfg : ManagerCfg) (o : String → AdapterBehavior) (dbo : String → Bool)
    (page : NotionPage) (db : DBState) (q : String) : List MgrEv :=
  if !(cfg.registered.contains q) then []
  else
    match mapGet? cfg.configs q with
    | none => []
    | some config =>
      if !config.enabled then []
      else
        let pid := (getPlatformID db q (dbo q)).1
        let db1 := (getPlatformID db q (dbo q)).2
        if pid == 0 then []
        else
          match findCompletedJob db1 page.id pid with
          | some _ => []
          | none =>
            match (o q).initErr with
            | some _ => [.initCall q]
            | none =>
              match (o q).publishDirect with
              | .error _ => [.initCall q, .publishDirectCall q]
              | .ok result =>
                if result.success && result.publishID != "" then
                  [.initCall q, .publishDirectCall q, .cleanupCall q]
                else [.initCall q, .publishDirectCall q]

/-- One loop iteration acts on the accumulated results by a single insert
and on the store and trace through the step functions above. -/
theorem processPlatform_decomp (cfg : ManagerCfg) (o : String → AdapterBehavior)
    (dbo : String → Bool) (page : NotionPage) (c : String) (st : MgrState) (q : String) :
    processPlatform cfg o dbo page c st q =
      { results := mapSet st.results q (stepRes cfg o dbo page st.db q),
        db := stepDB cfg o dbo page c st.db q,
        trace := st.trace ++ stepTraceDelta cfg o dbo page st.db q } := by
  unfold processPlatform stepRes stepDB stepTraceDelta
  dsimp only
  repeat' split
  all_goals simp_all

end Mgr

namespace Mgr

/-- Agreement of two loop states up to the entry of one platform `p`:
same store, same trace, same results at every other key. -/
def ResAgree (p : String) (st₁ st₂ : MgrState) : Prop :=
  st₁.db = st₂.db ∧ st₁.trace = st₂.trace
  ∧ ∀ q, q ≠ p → mapGet? st₁.results q = mapGet? st₂.results q

theorem resAgree_step (cfg : ManagerCfg) (o : String → AdapterBehavior)
    (dbo : String → Bool) (page : NotionPage) (c : String) (p n : String)
    (st₁ st₂ : MgrState) (h : ResAgree p st₁ st₂) :
    ResAgree p (processPlatform cfg o dbo page c st₁ n)
      (processPlatform cfg o dbo page c st₂ n) := by
  obtain ⟨hdb, htr, hres⟩ := h
  rw [processPlatform_decomp, processPlatform_decomp]
  refine ⟨by rw [hdb], by rw [hdb, htr], ?_⟩
  intro q hq
  by_cases hqn : q = n
  · subst hqn
    rw [mapGet?_mapSet_self, mapGet?_mapSet_self, hdb]
  · rw [mapGet?_mapSet_ne _ _ _ _ hqn, mapGet?_mapSet_ne _ _ _ _ hqn]
    exact hres q hq

theorem resAgree_fold (cfg : ManagerCfg) (o : String → AdapterBehavior)
    (dbo : String → Bool) (page : NotionPage) (c : String) (p : String)
    (L : List String) :
    ∀ st₁ st₂, ResAgree p st₁ st₂ →
      ResAgree p (L.foldl (processPlatform cfg o dbo page c) st₁)
        (L.foldl (processPlatform cfg o dbo page c) st₂) := by
  induction L with
  | nil => intro st₁ st₂ h; simpa using h
  | cons n L ih =>
    intro st₁ st₂ h
    rw [List.foldl_cons, List.foldl_cons]
    exact ih _ _ (resAgree_step cfg o dbo page c p n st₁ st₂ h)

end Mgr

namespace Mgr

/-- A platform failing the registry, config-presence or enabled check leaves
the store untouched and performs no adapter invocation. -/
theorem cfgFail_noop (cfg : ManagerCfg) (o : String → AdapterBehavior)
    (dbo : String → Bool) (page : NotionPage) (c : String) (p : String)
    (hfail : cfg.registered.contains p = false
      ∨ mapGet? cfg.configs p = none
      ∨ ∃ config, mapGet? cfg.configs p = some config ∧ config.enabled = false)
    (db : DBState) :
    stepDB cfg o dbo page c db p = db ∧ stepTraceDelta cfg o dbo page db p = [] := by
  unfold stepDB stepTraceDelta
  rcases hfail with h | h | ⟨config, hc, hd⟩
  · rw [h]
    exact ⟨rfl, rfl⟩
  · rcases hreg : cfg.registered.contains p with _ | _
    · exact ⟨rfl, rfl⟩
    · rw [h]
      exact ⟨rfl, rfl⟩
  · rcases hreg : cfg.registered.contains p with _ | _
    · exact ⟨rfl, rfl⟩
    · rw [hc]
      dsimp only
      rw [hd]
      exact ⟨rfl, rfl⟩

theorem cfgFail_resAgree (cfg : ManagerCfg) (o : String → AdapterBehavior)
    (dbo : String → Bool) (page : NotionPage) (c : String) (p : String)
    (hfail : cfg.registered.contains p = false
      ∨ mapGet? cfg.configs p = none
      ∨ ∃ config, mapGet? cfg.configs p = some config ∧ config.enabled = false)
    (st : MgrState) :
    ResAgree p (processPlatform cfg o dbo page c st p) st := by
  obtain ⟨hdb, htr⟩ := cfgFail_noop cfg o dbo page c p hfail st.db
  rw [processPlatform_decomp]
  exact ⟨hdb, by rw [htr, List.append_nil],
    fun q hq => mapGet?_mapSet_ne _ _ _ _ hq⟩

/-- Part (i) of the isolation property: a platform that fails the
registry/config/enabled checks affects nothing beyond its own results
entry — the run equals the run without it on the store, the trace, and
every other platform's result. -/
theorem cfgFail_skip (cfg : ManagerCfg) (o : String → AdapterBehavior)
    (dbo : String → Bool) (page : NotionPage) (p : String)
    (pre post : List String) (db : DBState)
    (hfail : cfg.registered.contains p = false
      ∨ mapGet? cfg.configs p = none
      ∨ ∃ config, mapGet? cfg.configs p = some config ∧ config.enabled = false) :
    ResAgree p (publishToPlatforms cfg o dbo page (pre ++ p :: post) db).1
      (publishToPlatforms cfg o dbo page (pre ++ post) db).1 := by
  unfold publishToPlatforms
  dsimp only
  rw [List.foldl_append, List.foldl_append, List.foldl_cons]
  exact resAgree_fold cfg o dbo page _ p post _ _
    (cfgFail_resAgree cfg o dbo page _ p hfail _)

end Mgr

namespace Mgr

/-- The name of the platform row holding a platform id, if any. -/
def platformOwner (platforms : List PlatformRow) (pid : Nat) : Option String :=
  (platforms.find? (fun r => r.id == pid)).map (fun r => r.name)

/-- Well-formedness of the platforms table: ids below the auto-increment
counter and pairwise distinct. -/
def WFP (db : DBState) : Prop :=
  (∀ r ∈ db.platforms, r.id < db.nextPlatformID)
  ∧ (db.platforms.map (fun r => r.id)).Nodup

/-- Well-formedness of the jobs table: ids below the auto-increment counter. -/
def WFJm (db : DBState) : Prop :=
  ∀ j ∈ db.jobs, j.id < db.nextJobID

/-- Two job rows that may differ only when the row belongs to platform `p`:
identity, page, platform and content always agree, and rows of any other
platform agree entirely. -/
def JobRel (platforms : List PlatformRow) (p : String) (j₁ j₂ : JobRow) : Prop :=
  j₁.id = j₂.id ∧ j₁.pageID = j₂.pageID ∧ j₁.platformID = j₂.platformID
  ∧ j₁.content = j₂.content
  ∧ (platformOwner platforms j₁.platformID ≠ some p → j₁ = j₂)

/-- Two stores that agree except possibly on the status/error of jobs of
platform `p`. -/
def Rel (p : String) (db₁ db₂ : DBState) : Prop :=
  db₁.platforms = db₂.platforms ∧ db₁.nextPlatformID = db₂.nextPlatformID
  ∧ db₁.nextJobID = db₂.nextJobID ∧ WFP db₁
  ∧ List.Forall₂ (JobRel db₁.platforms p) db₁.jobs db₂.jobs

theorem jobRel_refl (platforms : List PlatformRow) (p : String) (j : JobRow) :
    JobRel platforms p j j :=
  ⟨rfl, rfl, rfl, rfl, fun _ => rfl⟩

theorem rel_refl (p : String) (db : DBState) (h : WFP db) : Rel p db db :=
  ⟨rfl, rfl, rfl, h, List.forall₂_same.mpr (fun j _ => jobRel_refl db.platforms p j)⟩

theorem find?_append_left {α : Type} (l₁ l₂ : List α) (f : α → Bool) (r : α)
    (h : l₁.find? f = some r) : (l₁ ++ l₂).find? f = some r := by
  induction l₁ with
  | nil => simp [List.find?] at h
  | cons a l ih =>
    rw [List.cons_append]
    cases hfa : f a with
    | true => simp only [List.find?_cons, hfa] at h ⊢; exact h
    | false =>
      simp only [List.find?_cons, hfa] at h ⊢
      exact ih h

theorem find?_append_right {α : Type} (l₁ l₂ : List α) (f : α → Bool)
    (h : l₁.find? f = none) : (l₁ ++ l₂).find? f = l₂.find? f := by
  induction l₁ with
  | nil => rfl
  | cons a l ih =>
    rw [List.cons_append]
    cases hfa : f a with
    | true =>
      simp only [List.find?_cons, hfa] at h
      exact Option.noConfusion h
    | false =>
      simp only [List.find?_cons, hfa] at h ⊢
      exact ih h

theorem owner_append (pl : List PlatformRow) (row : PlatformRow) (pid : Nat)
    (nm : String) (h : platformOwner pl pid = some nm) :
    platformOwner (pl ++ [row]) pid = some nm := by
  unfold platformOwner at h ⊢
  cases hf : pl.find? (fun r => r.id == pid) with
  | none => rw [hf] at h; exact absurd h (by simp)
  | some r =>
    rw [hf] at h
    rw [find?_append_left _ _ _ _ hf]
    exact h

theorem owner_fresh (pl : List PlatformRow) (npid : Nat)
    (hb : ∀ r ∈ pl, r.id < npid) : platformOwner pl npid = none := by
  unfold platformOwner
  rw [List.find?_eq_none.mpr]
  · rfl
  · intro r hr
    simp only [beq_iff_eq]
    exact Nat.ne_of_lt (hb r hr)

theorem owner_append_self (pl : List PlatformRow) (npid : Nat) (n : String)
    (hb : ∀ r ∈ pl, r.id < npid) :
    platformOwner (pl ++ [{ id := npid, name := n, enabled := true }]) npid = some n := by
  unfold platformOwner
  rw [find?_append_right]
  · simp [List.find?]
  · rw [List.find?_eq_none.mpr]
    intro r hr
    simp only [beq_iff_eq]
    exact Nat.ne_of_lt (hb r hr)

theorem owner_of_find_name (pl : List PlatformRow) (nm : String) (r : PlatformRow)
    (hnd : (pl.map (fun x => x.id)).Nodup)
    (h : pl.find? (fun x => x.name == nm) = some r) :
    platformOwner pl r.id = some nm := by
  have hmem : r ∈ pl := List.mem_of_find?_eq_some h
  have hname := List.find?_some h
  unfold platformOwner
  have hsome : (pl.find? (fun x => x.id == r.id)).isSome :=
    List.find?_isSome.mpr ⟨r, hmem, by simp⟩
  obtain ⟨s, hs⟩ := Option.isSome_iff_exists.mp hsome
  have hmem' : s ∈ pl := List.mem_of_find?_eq_some hs
  have hid := List.find?_some hs
  have hsr : s = r := List.inj_on_of_nodup_map hnd hmem' hmem (by simpa using hid)
  rw [hs, hsr]
  simpa using hname

theorem jobRel_extend (pl : List PlatformRow) (row : PlatformRow) (p : String)
    (j₁ j₂ : JobRow) (h : JobRel pl p j₁ j₂) : JobRel (pl ++ [row]) p j₁ j₂ := by
  obtain ⟨h1, h2, h3, h4, h5⟩ := h
  refine ⟨h1, h2, h3, h4, fun hne => h5 ?_⟩
  intro hp
  exact hne (owner_append pl row _ p hp)

theorem forall₂_append_gen {α β : Type} (R : α → β → Prop)
    (l₁ : List α) (l₂ : List β) (u₁ : List α) (u₂ : List β)
    (h : List.Forall₂ R l₁ l₂) (hu : List.Forall₂ R u₁ u₂) :
    List.Forall₂ R (l₁ ++ u₁) (l₂ ++ u₂) := by
  induction h with
  | nil => simpa using hu
  | cons hab _ ih => exact List.Forall₂.cons hab ih

end Mgr


namespace Mgr

theorem getPlatformID_found_eq (db : DBState) (n : String) (b : Bool) (r : PlatformRow)
    (hf : db.platforms.find? (fun x => x.name == n) = some r) :
    getPlatformID db n b = (r.id, db) := by
  unfold getPlatformID findPlatform
  rw [hf]

theorem getPlatformID_fail_eq (db : DBState) (n : String)
    (hf : db.platforms.find? (fun x => x.name == n) = none) :
    getPlatformID db n true = (0, db) := by
  unfold getPlatformID findPlatform
  rw [hf]
  rfl

theorem getPlatformID_create_eq (db : DBState) (n : String)
    (hf : db.platforms.find? (fun x => x.name == n) = none) :
    getPlatformID db n false =
      (db.nextPlatformID,
        { db with
            platforms := db.platforms ++ [{ id := db.nextPlatformID, name := n, enabled := true }]
            nextPlatformID := db.nextPlatformID + 1 }) := by
  unfold getPlatformID findPlatform
  rw [hf]
  rfl

theorem getPlatformID_wfp (db : DBState) (n : String) (b : Bool) (h : WFP db) :
    WFP (getPlatformID db n b).2 := by
  cases hf : db.platforms.find? (fun x => x.name == n) with
  | some r =>
    rw [getPlatformID_found_eq db n b r hf]
    exact h
  | none =>
    cases b with
    | true =>
      rw [getPlatformID_fail_eq db n hf]
      exact h
    | false =>
      rw [getPlatformID_create_eq db n hf]
      refine ⟨?_, ?_⟩
      · intro r hr
        rcases List.mem_append.mp hr with hmem | hmem
        · exact Nat.lt_trans (h.1 r hmem) (Nat.lt_succ_self _)
        · rw [List.mem_singleton.mp hmem]
          exact Nat.lt_succ_self _
      · dsimp only
        rw [List.map_append]
        refine List.Nodup.append h.2 (by simp) ?_
        intro a ha hb
        simp only [List.map_cons, List.map_nil, List.mem_singleton] at hb
        subst hb
        obtain ⟨r, hmem, hid⟩ := List.mem_map.mp ha
        exact absurd hid (Nat.ne_of_lt (h.1 r hmem))

/-- `getPlatformID` on related stores: same returned id, relation preserved,
and a nonzero id is owned by the looked-up name. -/
theorem getPlatformID_rel (p n : String) (b : Bool) (db₁ db₂ : DBState)
    (hrel : Rel p db₁ db₂) :
    (getPlatformID db₁ n b).1 = (getPlatformID db₂ n b).1
    ∧ Rel p (getPlatformID db₁ n b).2 (getPlatformID db₂ n b).2
    ∧ ((getPlatformID db₁ n b).1 ≠ 0 →
        platformOwner ((getPlatformID db₁ n b).2).platforms
          (getPlatformID db₁ n b).1 = some n) := by
  obtain ⟨hpl, hnp, hnj, hwfp, hjobs⟩ := hrel
  cases hf : db₁.platforms.find? (fun x => x.name == n) with
  | some r =>
    have hf₂ : db₂.platforms.find? (fun x => x.name == n) = some r := by
      rw [← hpl]; exact hf
    rw [getPlatformID_found_eq db₁ n b r hf, getPlatformID_found_eq db₂ n b r hf₂]
    refine ⟨rfl, ⟨hpl, hnp, hnj, hwfp, hjobs⟩, fun _ => ?_⟩
    exact owner_of_find_name db₁.platforms n r hwfp.2 hf
  | none =>
    have hf₂ : db₂.platforms.find? (fun x => x.name == n) = none := by
      rw [← hpl]; exact hf
    cases b with
    | true =>
      rw [getPlatformID_fail_eq db₁ n hf, getPlatformID_fail_eq db₂ n hf₂]
      exact ⟨rfl, ⟨hpl, hnp, hnj, hwfp, hjobs⟩, fun h0 => absurd rfl h0⟩
    | false =>
      rw [getPlatformID_create_eq db₁ n hf, getPlatformID_create_eq db₂ n hf₂]
      have hwfp2 : WFP (getPlatformID db₁ n false).2 :=
        getPlatformID_wfp db₁ n false hwfp
      rw [getPlatformID_create_eq db₁ n hf] at hwfp2
      refine ⟨hnp, ⟨?_, ?_, hnj, hwfp2, ?_⟩, fun _ => ?_⟩
      · dsimp only
        rw [hpl, hnp]
      · dsimp only
        rw [hnp]
      · dsimp only
        exact hjobs.imp (fun a b hab => jobRel_extend db₁.platforms _ p a b hab)
      · dsimp only
        exact owner_append_self db₁.platforms db₁.nextPlatformID n hwfp.1

end Mgr

namespace Mgr

/-- The completed-job query reads only fields on which related job lists
agree, provided the queried platform id is owned by a platform other
than `p`. -/
theorem findCompleted_forall₂ (pl : List PlatformRow) (p n : String) (pg pid : Nat)
    (howner : platformOwner pl pid = some n) (hnp : n ≠ p)
    (l₁ l₂ : List JobRow) (h : List.Forall₂ (JobRel pl p) l₁ l₂) :
    l₁.find? (fun j => j.pageID == pg && j.platformID == pid && j.status == "completed")
    = l₂.find? (fun j => j.pageID == pg && j.platformID == pid && j.status == "completed") := by
  induction h with
  | nil => rfl
  | cons hab ht ih =>
    rename_i a b l₁ l₂
    obtain ⟨hid, hpg, hpid, hc, himp⟩ := hab
    by_cases hpa : a.platformID = pid
    · have hab' : a = b := by
        apply himp
        rw [hpa, howner]
        intro hcon
        exact hnp (Option.some.inj hcon)
      rw [hab']
      simp only [List.find?_cons]
      cases hfb : (b.pageID == pg && b.platformID == pid && b.status == "completed") with
      | true => rfl
      | false => exact ih
    · have hfa : (a.pageID == pg && a.platformID == pid && a.status == "completed") = false := by
        have : (a.platformID == pid) = false := by simpa using hpa
        simp [this]
      have hfb : (b.pageID == pg && b.platformID == pid && b.status == "completed") = false := by
        have : (b.platformID == pid) = false := by
          rw [← hpid]
          simpa using hpa
        simp [this]
      simp only [List.find?_cons, hfa, hfb]
      exact ih

/-- Pointwise update of related job lists with the same status/error
preserves the relation. -/
theorem forall₂_update (pl : List PlatformRow) (p : String) (jobID : Nat)
    (st er : String) (l₁ l₂ : List JobRow) (h : List.Forall₂ (JobRel pl p) l₁ l₂) :
    List.Forall₂ (JobRel pl p)
      (l₁.map (fun j => if j.id == jobID then { j with status := st, error := er } else j))
      (l₂.map (fun j => if j.id == jobID then { j with status := st, error := er } else j)) := by
  induction h with
  | nil => exact List.Forall₂.nil
  | cons hab ht ih =>
    rename_i a b l₁ l₂
    refine List.Forall₂.cons ?_ ih
    obtain ⟨hid, hpg, hpid, hc, himp⟩ := hab
    dsimp only
    rw [← hid]
    by_cases hj : (a.id == jobID) = true
    · rw [if_pos hj, if_pos hj]
      refine ⟨rfl, hpg, hpid, hc, fun hne => ?_⟩
      rw [himp hne]
    · rw [if_neg hj, if_neg hj]
      exact ⟨hid, hpg, hpid, hc, himp⟩

end Mgr

namespace Mgr

/-- Updating the same store twice with possibly different terminal statuses
relates the results, provided every row carrying the updated id belongs to
platform `p`. -/
theorem update_update_rel (p : String) (db : DBState) (jobID pidP : Nat)
    (s₁ e₁ s₂ e₂ : String)
    (hwfp : WFP db)
    (hrows : ∀ j ∈ db.jobs, j.id = jobID → j.platformID = pidP)
    (howner : platformOwner db.platforms pidP = some p) :
    Rel p (updateJobStatus db jobID s₁ e₁) (updateJobStatus db jobID s₂ e₂) := by
  refine ⟨rfl, rfl, rfl, hwfp, ?_⟩
  show List.Forall₂ (JobRel db.platforms p) _ _
  have key : ∀ l : List JobRow, (∀ j ∈ l, j.id = jobID → j.platformID = pidP) →
      List.Forall₂ (JobRel db.platforms p)
        (l.map (fun j => if j.id == jobID then { j with status := s₁, error := e₁ } else j))
        (l.map (fun j => if j.id == jobID then { j with status := s₂, error := e₂ } else j)) := by
    intro l
    induction l with
    | nil => intro _; exact List.Forall₂.nil
    | cons a l ih =>
      intro hl
      refine List.Forall₂.cons ?_ (ih (fun j hj => hl j (List.mem_cons_of_mem a hj)))
      dsimp only
      by_cases hj : (a.id == jobID) = true
      · rw [if_pos hj, if_pos hj]
        refine ⟨rfl, rfl, rfl, rfl, fun hne => ?_⟩
        exfalso
        have hpa : a.platformID = pidP :=
          hl a (List.mem_cons_self a l) (by simpa using hj)
        dsimp only at hne
        rw [hpa, howner] at hne
        exact hne rfl
      · rw [if_neg hj, if_neg hj]
        exact jobRel_refl _ _ _
  exact key db.jobs hrows

/-- Creating the in-progress row and settling it, on the same store, with
two possibly different terminal statuses: the stores stay related when the
platform id belongs to `p`. -/
theorem create_update_update_rel (p : String) (db1 : DBState) (pg pid : Nat)
    (c : String) (s₁ e₁ s₂ e₂ : String)
    (hwfp : WFP db1) (hwfj : ∀ j ∈ db1.jobs, j.id < db1.nextJobID)
    (howner : platformOwner db1.platforms pid = some p) :
    Rel p
      (updateJobStatus (createJob db1 pg pid "in_progress" c).2
        (createJob db1 pg pid "in_progress" c).1.id s₁ e₁)
      (updateJobStatus (createJob db1 pg pid "in_progress" c).2
        (createJob db1 pg pid "in_progress" c).1.id s₂ e₂) := by
  apply update_update_rel p _ _ pid
  · exact hwfp
  · intro j hj hid
    rcases List.mem_append.mp hj with hmem | hmem
    · exact absurd hid (Nat.ne_of_lt (hwfj j hmem))
    · rw [List.mem_singleton.mp hmem]
  · exact howner

end Mgr

namespace Mgr

theorem createJob_rel (p : String) (pg pid : Nat) (st c' : String)
    (db₁ db₂ : DBState) (h : Rel p db₁ db₂) :
    Rel p (createJob db₁ pg pid st c').2 (createJob db₂ pg pid st c').2 := by
  obtain ⟨hpl, hnp, hnj, hwfp, hjobs⟩ := h
  unfold createJob
  dsimp only
  refine ⟨hpl, hnp, ?_, hwfp, ?_⟩
  · dsimp only
    rw [hnj]
  · dsimp only
    refine forall₂_append_gen _ _ _ _ _ hjobs ?_
    refine List.Forall₂.cons ?_ List.Forall₂.nil
    refine ⟨hnj, rfl, rfl, rfl, fun _ => ?_⟩
    rw [hnj]

theorem updateJobStatus_rel (p : String) (jobID : Nat) (st er : String)
    (db₁ db₂ : DBState) (h : Rel p db₁ db₂) :
    Rel p (updateJobStatus db₁ jobID st er) (updateJobStatus db₂ jobID st er) := by
  obtain ⟨hpl, hnp, hnj, hwfp, hjobs⟩ := h
  exact ⟨hpl, hnp, hnj, hwfp, forall₂_update db₁.platforms p jobID st er _ _ hjobs⟩

theorem findCompletedJob_rel (p n : String) (pg pid : Nat) (db₁ db₂ : DBState)
    (hrel : Rel p db₁ db₂)
    (howner : platformOwner db₁.platforms pid = some n) (hnp : n ≠ p) :
    findCompletedJob db₁ pg pid = findCompletedJob db₂ pg pid := by
  unfold findCompletedJob
  exact findCompleted_forall₂ db₁.platforms p n pg pid howner hnp _ _ hrel.2.2.2.2

/-- One loop iteration for a platform other than `p`, with the same adapter
behaviour for it, acts identically on related stores: same result, same
adapter invocations, and related stores. -/
theorem step_bisim (cfg : ManagerCfg) (o₁ o₂ : String → AdapterBehavior)
    (dbo : String → Bool) (page : NotionPage) (c : String) (p n : String)
    (hne : n ≠ p) (hbeh : o₁ n = o₂ n) (db₁ db₂ : DBState) (hrel : Rel p db₁ db₂) :
    stepRes cfg o₁ dbo page db₁ n = stepRes cfg o₂ dbo page db₂ n
    ∧ stepTraceDelta cfg o₁ dbo page db₁ n = stepTraceDelta cfg o₂ dbo page db₂ n
    ∧ Rel p (stepDB cfg o₁ dbo page c db₁ n) (stepDB cfg o₂ dbo page c db₂ n) := by
  unfold stepRes stepTraceDelta stepDB
  dsimp only
  rw [hbeh]
  obtain ⟨hpid, hrel1, howner⟩ := getPlatformID_rel p n (dbo n) db₁ db₂ hrel
  rw [← hpid]
  cases hreg : cfg.registered.contains n with
  | false => exact ⟨rfl, rfl, hrel⟩
  | true =>
    cases hcfg : mapGet? cfg.configs n with
    | none => exact ⟨rfl, rfl, hrel⟩
    | some config =>
      dsimp only
      cases hen : config.enabled with
      | false => exact ⟨rfl, rfl, hrel⟩
      | true =>
        cases hpid0 : ((getPlatformID db₁ n (dbo n)).1 == 0) with
        | true => exact ⟨rfl, rfl, hrel1⟩
        | false =>
          have hne0 : (getPlatformID db₁ n (dbo n)).1 ≠ 0 := by
            intro h0
            rw [h0] at hpid0
            exact absurd hpid0 (by decide)
          have howner1 := howner hne0
          rw [← findCompletedJob_rel p n page.id (getPlatformID db₁ n (dbo n)).1
            (getPlatformID db₁ n (dbo n)).2 (getPlatformID db₂ n (dbo n)).2
            hrel1 howner1 hne]
          cases hfc : findCompletedJob (getPlatformID db₁ n (dbo n)).2 page.id
              (getPlatformID db₁ n (dbo n)).1 with
          | some j => exact ⟨rfl, rfl, hrel1⟩
          | none =>
            dsimp only
            have hnj1 : ((getPlatformID db₁ n (dbo n)).2).nextJobID
                = ((getPlatformID db₂ n (dbo n)).2).nextJobID := hrel1.2.2.1
            have hcj : (createJob (getPlatformID db₂ n (dbo n)).2 page.id
                  (getPlatformID db₁ n (dbo n)).1 "in_progress" c).1
                = (createJob (getPlatformID db₁ n (dbo n)).2 page.id
                  (getPlatformID db₁ n (dbo n)).1 "in_progress" c).1 := by
              unfold createJob
              dsimp only
              rw [hnj1]
            rw [hcj]
            have hrel2 := createJob_rel p page.id (getPlatformID db₁ n (dbo n)).1
              "in_progress" c _ _ hrel1
            cases hinit : (o₂ n).initErr with
            | some e => exact ⟨rfl, rfl, updateJobStatus_rel p _ "failed" e _ _ hrel2⟩
            | none =>
              dsimp only
              cases hpub : (o₂ n).publishDirect with
              | error e => exact ⟨rfl, rfl, updateJobStatus_rel p _ "failed" e _ _ hrel2⟩
              | ok result =>
                dsimp only
                refine ⟨rfl, rfl, ?_⟩
                cases hs : result.success with
                | true => exact updateJobStatus_rel p _ "completed" "" _ _ hrel2
                | false => exact updateJobStatus_rel p _ "failed" _ _ _ hrel2

end Mgr

namespace Mgr

/-- The iteration for `p` itself, with different adapter behaviours, still
produces related stores from one store: only `p`-owned job rows can end up
differing. -/
theorem step_p_rel (cfg : ManagerCfg) (o₁ o₂ : String → AdapterBehavior)
    (dbo : String → Bool) (page : NotionPage) (c : String) (p : String)
    (db : DBState) (hwfp : WFP db) (hwfj : WFJm db) :
    Rel p (stepDB cfg o₁ dbo page c db p) (stepDB cfg o₂ dbo page c db p) := by
  unfold stepDB
  dsimp only
  cases hreg : cfg.registered.contains p with
  | false => exact rel_refl p db hwfp
  | true =>
    cases hcfg : mapGet? cfg.configs p with
    | none => exact rel_refl p db hwfp
    | some config =>
      dsimp only
      cases hen : config.enabled with
      | false => exact rel_refl p db hwfp
      | true =>
        cases hpid0 : ((getPlatformID db p (dbo p)).1 == 0) with
        | true => exact rel_refl p _ (getPlatformID_wfp db p (dbo p) hwfp)
        | false =>
          cases hfc : findCompletedJob (getPlatformID db p (dbo p)).2 page.id
              (getPlatformID db p (dbo p)).1 with
          | some j => exact rel_refl p _ (getPlatformID_wfp db p (dbo p) hwfp)
          | none =>
            dsimp only
            have hwfp1 := getPlatformID_wfp db p (dbo p) hwfp
            have hjid := getPlatformID_jobs db p (dbo p)
            have hwfj1 : ∀ j ∈ ((getPlatformID db p (dbo p)).2).jobs,
                j.id < ((getPlatformID db p (dbo p)).2).nextJobID := by
              rw [hjid.1, hjid.2]
              exact hwfj
            have hne0 : (getPlatformID db p (dbo p)).1 ≠ 0 := by
              intro h0
              rw [h0] at hpid0
              exact absurd hpid0 (by decide)
            have howner1 := (getPlatformID_rel p p (dbo p) db db (rel_refl p db hwfp)).2.2 hne0
            have key := fun (s₁ e₁ s₂ e₂ : String) => create_update_update_rel p
              ((getPlatformID db p (dbo p)).2) page.id ((getPlatformID db p (dbo p)).1) c
              s₁ e₁ s₂ e₂ hwfp1 hwfj1 howner1
            cases hinit1 : (o₁ p).initErr with
            | some e₁ =>
              dsimp only
              repeat' split
              all_goals first
                | exact key _ _ _ _
                | (rename_i h; exact absurd h (by decide))
            | none =>
              dsimp only
              cases hpub1 : (o₁ p).publishDirect with
              | error e₁ =>
                dsimp only
                repeat' split
                all_goals first
                  | exact key _ _ _ _
                  | (rename_i h; exact absurd h (by decide))
              | ok r₁ =>
                dsimp only
                repeat' split
                all_goals first
                  | exact key _ _ _ _
                  | (rename_i h; exact absurd h (by decide))

end Mgr

namespace Mgr

theorem stepRes_congr (cfg : ManagerCfg) (o₁ o₂ : String → AdapterBehavior)
    (dbo : String → Bool) (page : NotionPage) (db : DBState) (n : String)
    (hbeh : o₁ n = o₂ n) :
    stepRes cfg o₁ dbo page db n = stepRes cfg o₂ dbo page db n := by
  unfold stepRes
  rw [hbeh]

theorem stepDB_congr (cfg : ManagerCfg) (o₁ o₂ : String → AdapterBehavior)
    (dbo : String → Bool) (page : NotionPage) (c : String) (db : DBState) (n : String)
    (hbeh : o₁ n = o₂ n) :
    stepDB cfg o₁ dbo page c db n = stepDB cfg o₂ dbo page c db n := by
  unfold stepDB
  rw [hbeh]

theorem stepTraceDelta_congr (cfg : ManagerCfg) (o₁ o₂ : String → AdapterBehavior)
    (dbo : String → Bool) (page : NotionPage) (db : DBState) (n : String)
    (hbeh : o₁ n = o₂ n) :
    stepTraceDelta cfg o₁ dbo page db n = stepTraceDelta cfg o₂ dbo page db n := by
  unfold stepTraceDelta
  rw [hbeh]

/-- Folding over a list that avoids `p` with behaviours that agree off `p`
gives literally the same state. -/
theorem fold_beh_eq (cfg : ManagerCfg) (o₁ o₂ : String → AdapterBehavior)
    (dbo : String → Bool) (page : NotionPage) (c : String) (p : String)
    (hbeh : ∀ q, q ≠ p → o₁ q = o₂ q) :
    ∀ (L : List String) (st : MgrState), p ∉ L →
      L.foldl (processPlatform cfg o₁ dbo page c) st
      = L.foldl (processPlatform cfg o₂ dbo page c) st := by
  intro L
  induction L with
  | nil => intro st _; rfl
  | cons n L ih =>
    intro st hL
    have hn : n ≠ p := fun h => hL (h ▸ List.mem_cons_self n L)
    rw [List.foldl_cons, List.foldl_cons,
      processPlatform_decomp, processPlatform_decomp,
      stepRes_congr cfg o₁ o₂ dbo page st.db n (hbeh n hn),
      stepDB_congr cfg o₁ o₂ dbo page c st.db n (hbeh n hn),
      stepTraceDelta_congr cfg o₁ o₂ dbo page st.db n (hbeh n hn)]
    exact ih _ (fun hm => hL (List.mem_cons_of_mem n hm))

theorem wfp_eq_fields (db db' : DBState) (hp : db'.platforms = db.platforms)
    (hn : db'.nextPlatformID = db.nextPlatformID) (h : WFP db) : WFP db' := by
  unfold WFP at *
  rw [hp, hn]
  exact h

theorem wfjm_eq_fields (db db' : DBState) (hj : db'.jobs = db.jobs)
    (hn : db'.nextJobID = db.nextJobID) (h : WFJm db) : WFJm db' := by
  unfold WFJm at *
  rw [hj, hn]
  exact h

theorem stepDB_wfp (cfg : ManagerCfg) (o : String → AdapterBehavior)
    (dbo : String → Bool) (page : NotionPage) (c : String) (db : DBState) (n : String)
    (h : WFP db) : WFP (stepDB cfg o dbo page c db n) := by
  unfold stepDB
  dsimp only
  repeat' split
  all_goals first
    | exact h
    | exact getPlatformID_wfp db n (dbo n) h

theorem wfjm_create_update (db1 : DBState) (pg pid : Nat) (c s e : String)
    (h : WFJm db1) :
    WFJm (updateJobStatus (createJob db1 pg pid "in_progress" c).2
      (createJob db1 pg pid "in_progress" c).1.id s e) := by
  intro j hj
  obtain ⟨j₀, hj₀, hu⟩ := List.mem_map.mp hj
  have hid : j.id = j₀.id := by
    rw [← hu]
    split
    · rfl
    · rfl
  show j.id < db1.nextJobID + 1
  rw [hid]
  rcases List.mem_append.mp hj₀ with hmem | hmem
  · exact Nat.lt_trans (h j₀ hmem) (Nat.lt_succ_self _)
  · rw [List.mem_singleton.mp hmem]
    exact Nat.lt_succ_self _

theorem stepDB_wfjm (cfg : ManagerCfg) (o : String → AdapterBehavior)
    (dbo : String → Bool) (page : NotionPage) (c : String) (db : DBState) (n : String)
    (h : WFJm db) : WFJm (stepDB cfg o dbo page c db n) := by
  have h1 : WFJm (getPlatformID db n (dbo n)).2 :=
    wfjm_eq_fields db _ (getPlatformID_jobs db n (dbo n)).1
      (getPlatformID_jobs db n (dbo n)).2 h
  unfold stepDB
  dsimp only
  repeat' split
  all_goals first
    | exact h
    | exact h1
    | exact wfjm_create_update _ _ _ _ _ _ h1

theorem stepTraceDelta_platform (cfg : ManagerCfg) (o : String → AdapterBehavior)
    (dbo : String → Bool) (page : NotionPage) (db : DBState) (q : String) :
    ∀ ev ∈ stepTraceDelta cfg o dbo page db q, ev.platform = q := by
  unfold stepTraceDelta
  dsimp only
  repeat' split
  all_goals intro ev hev
  all_goals first
    | exact absurd hev (List.not_mem_nil ev)
    | (fin_cases hev <;> rfl)

theorem stepTraceDelta_filter (cfg : ManagerCfg) (o : String → AdapterBehavior)
    (dbo : String → Bool) (page : NotionPage) (db : DBState) (q : String) :
    (stepTraceDelta cfg o dbo page db q).filter (fun ev => ev.platform != q) = [] := by
  apply List.filter_eq_nil_iff.mpr
  intro ev hev
  have hp := stepTraceDelta_platform cfg o dbo page db q ev hev
  simp [hp]

end Mgr

namespace Mgr

/-- Agreement of two loop states except on what belongs to platform `p`:
related stores, equal results off `p`, and equal traces after discarding
`p`-tagged adapter invocations. -/
def StRel (p : String) (st₁ st₂ : MgrState) : Prop :=
  Rel p st₁.db st₂.db
  ∧ (∀ q, q ≠ p → mapGet? st₁.results q = mapGet? st₂.results q)
  ∧ st₁.trace.filter (fun ev => ev.platform != p)
    = st₂.trace.filter (fun ev => ev.platform != p)

theorem strel_step (cfg : ManagerCfg) (o₁ o₂ : String → AdapterBehavior)
    (dbo : String → Bool) (page : NotionPage) (c : String) (p n : String)
    (hne : n ≠ p) (hbeh : o₁ n = o₂ n) (st₁ st₂ : MgrState)
    (h : StRel p st₁ st₂) :
    StRel p (processPlatform cfg o₁ dbo page c st₁ n)
      (processPlatform cfg o₂ dbo page c st₂ n) := by
  obtain ⟨hdb, hres, htr⟩ := h
  obtain ⟨hr, ht, hd⟩ := step_bisim cfg o₁ o₂ dbo page c p n hne hbeh st₁.db st₂.db hdb
  rw [processPlatform_decomp, processPlatform_decomp]
  refine ⟨hd, ?_, ?_⟩
  · intro q hq
    by_cases hqn : q = n
    · subst hqn
      rw [mapGet?_mapSet_self, mapGet?_mapSet_self, hr]
    · rw [mapGet?_mapSet_ne _ _ _ _ hqn, mapGet?_mapSet_ne _ _ _ _ hqn]
      exact hres q hq
  · dsimp only
    rw [List.filter_append, List.filter_append, htr, ht]

theorem strel_fold (cfg : ManagerCfg) (o₁ o₂ : String → AdapterBehavior)
    (dbo : String → Bool) (page : NotionPage) (c : String) (p : String)
    (hbeh : ∀ q, q ≠ p → o₁ q = o₂ q) :
    ∀ (L : List String), p ∉ L → ∀ st₁ st₂, StRel p st₁ st₂ →
      StRel p (L.foldl (processPlatform cfg o₁ dbo page c) st₁)
        (L.foldl (processPlatform cfg o₂ dbo page c) st₂) := by
  intro L
  induction L with
  | nil => intro _ st₁ st₂ h; exact h
  | cons n L ih =>
    intro hL st₁ st₂ h
    have hn : n ≠ p := fun heq => hL (heq ▸ List.mem_cons_self n L)
    rw [List.foldl_cons, List.foldl_cons]
    exact ih (fun hm => hL (List.mem_cons_of_mem n hm)) _ _
      (strel_step cfg o₁ o₂ dbo page c p n hn (hbeh n hn) st₁ st₂ h)

/-- The `p` iteration itself, from one state, under two behaviours: the
states stay in agreement off `p`. -/
theorem strel_p_step (cfg : ManagerCfg) (o₁ o₂ : String → AdapterBehavior)
    (dbo : String → Bool) (page : NotionPage) (c : String) (p : String)
    (st : MgrState) (hwfp : WFP st.db) (hwfj : WFJm st.db) :
    StRel p (processPlatform cfg o₁ dbo page c st p)
      (processPlatform cfg o₂ dbo page c st p) := by
  rw [processPlatform_decomp, processPlatform_decomp]
  refine ⟨step_p_rel cfg o₁ o₂ dbo page c p st.db hwfp hwfj, ?_, ?_⟩
  · intro q hq
    rw [mapGet?_mapSet_ne _ _ _ _ hq, mapGet?_mapSet_ne _ _ _ _ hq]
  · dsimp only
    rw [List.filter_append, List.filter_append,
      stepTraceDelta_filter cfg o₁ dbo page st.db p,
      stepTraceDelta_filter cfg o₂ dbo page st.db p]

theorem fold_wfp (cfg : ManagerCfg) (o : String → AdapterBehavior)
    (dbo : String → Bool) (page : NotionPage) (c : String) :
    ∀ (L : List String) (st : MgrState), WFP st.db →
      WFP ((L.foldl (processPlatform cfg o dbo page c) st).db) := by
  intro L
  induction L with
  | nil => intro st h; exact h
  | cons n L ih =>
    intro st h
    rw [List.foldl_cons]
    apply ih
    rw [processPlatform_decomp]
    exact stepDB_wfp cfg o dbo page c st.db n h

theorem fold_wfjm (cfg : ManagerCfg) (o : String → AdapterBehavior)
    (dbo : String → Bool) (page : NotionPage) (c : String) :
    ∀ (L : List String) (st : MgrState), WFJm st.db →
      WFJm ((L.foldl (processPlatform cfg o dbo page c) st).db) := by
  intro L
  induction L with
  | nil => intro st h; exact h
  | cons n L ih =>
    intro st h
    rw [List.foldl_cons]
    apply ih
    rw [processPlatform_decomp]
    exact stepDB_wfjm cfg o dbo page c st.db n h

/-- Part (ii) of the isolation property, at the level of whole runs: if the
two behaviour assignments agree on every platform except `p`, a batch that
names `p` once yields the same results off `p` and the same non-`p` adapter
invocations under both. -/
theorem behaviour_isolated (cfg : ManagerCfg) (o₁ o₂ : String → AdapterBehavior)
    (dbo : String → Bool) (page : NotionPage) (p : String)
    (pre post : List String) (db : DBState)
    (hpre : p ∉ pre) (hpost : p ∉ post)
    (hbeh : ∀ q, q ≠ p → o₁ q = o₂ q)
    (hwfp : WFP db) (hwfj : WFJm db) :
    StRel p (publishToPlatforms cfg o₁ dbo page (pre ++ p :: post) db).1
      (publishToPlatforms cfg o₂ dbo page (pre ++ p :: post) db).1 := by
  unfold publishToPlatforms
  dsimp only
  rw [List.foldl_append, List.foldl_append, List.foldl_cons, List.foldl_cons]
  rw [← fold_beh_eq cfg o₁ o₂ dbo page (fromNotionPage page).content p hbeh pre
    { results := [], db := db, trace := [] } hpre]
  apply strel_fold cfg o₁ o₂ dbo page (fromNotionPage page).content p hbeh post hpost
  apply strel_p_step
  · exact fold_wfp cfg o₁ dbo page (fromNotionPage page).content pre _ hwfp
  · exact fold_wfjm cfg o₁ dbo page (fromNotionPage page).content pre _ hwfj

end Mgr

namespace Mgr

/-- C3: per-platform isolation of `PublishToPlatforms`. (i) A platform `p`
failing the registry/config/enabled checks leaves the store and the adapter
invocations exactly as if `p` had not been in the batch, and every other
platform's entry in the returned map is unchanged. (ii) Changing only `p`'s
adapter behaviour — e.g. from a failing initialization or publish call to a
succeeding one — never changes any other platform's entry in the returned
map, nor the adapter invocations performed for other platforms. -/
theorem C3_per_platform_isolation (cfg : ManagerCfg)
    (o o₁ o₂ : String → AdapterBehavior) (dbo : String → Bool)
    (page : NotionPage) (p : String) (pre post : List String) (db : DBState) :
    ((cfg.registered.contains p = false
        ∨ mapGet? cfg.configs p = none
        ∨ (∃ config, mapGet? cfg.configs p = some config ∧ config.enabled = false)) →
      ((publishToPlatforms cfg o dbo page (pre ++ p :: post) db).1.db
          = (publishToPlatforms cfg o dbo page (pre ++ post) db).1.db
        ∧ (publishToPlatforms cfg o dbo page (pre ++ p :: post) db).1.trace
          = (publishToPlatforms cfg o dbo page (pre ++ post) db).1.trace
        ∧ ∀ q, q ≠ p →
            mapGet? (publishToPlatforms cfg o dbo page (pre ++ p :: post) db).1.results q
            = mapGet? (publishToPlatforms cfg o dbo page (pre ++ post) db).1.results q))
    ∧ (p ∉ pre → p ∉ post → (∀ q, q ≠ p → o₁ q = o₂ q) → WFP db → WFJm db →
      ((∀ q, q ≠ p →
          mapGet? (publishToPlatforms cfg o₁ dbo page (pre ++ p :: post) db).1.results q
          = mapGet? (publishToPlatforms cfg o₂ dbo page (pre ++ p :: post) db).1.results q)
        ∧ (publishToPlatforms cfg o₁ dbo page (pre ++ p :: post) db).1.trace.filter
            (fun ev => ev.platform != p)
          = (publishToPlatforms cfg o₂ dbo page (pre ++ p :: post) db).1.trace.filter
            (fun ev => ev.platform != p))) := by
  constructor
  · intro hfail
    exact cfgFail_skip cfg o dbo page p pre post db hfail
  · intro hpre hpost hbeh hwfp hwfj
    obtain ⟨_, hres, htr⟩ :=
      behaviour_isolated cfg o₁ o₂ dbo page p pre post db hpre hpost hbeh hwfp hwfj
    exact ⟨hres, htr⟩

def cfgC3 : ManagerCfg :=
  { registered := ["al-folio"],
    configs := [("al-folio", { platformName := "al-folio", enabled := true, config := [] })] }

def behOkC3 : AdapterBehavior :=
  { initErr := none, transformOutcome := .ok "T", processOutcome := .ok "P",
    saveToDraft := .ok { success := true }, publishDirect := .ok { success := true, publishID := "pid" } }

def behFailC3 : AdapterBehavior :=
  { initErr := none, transformOutcome := .ok "T", processOutcome := .ok "P",
    saveToDraft := .ok { success := true }, publishDirect := .error "boom" }

def oFailC3 : String → AdapterBehavior :=
  fun q => if q == "x" then behFailC3 else behOkC3

def pageC3 : NotionPage := { id := 2, notionID := "n3", content := "body3" }

/-- Closed instance of `C3_per_platform_isolation`: an unregistered platform
in the batch leaves the store as if absent, and failing its publish call
leaves the other platform's result untouched. -/
theorem C3_per_platform_isolation_witness :
    ((publishToPlatforms cfgC3 (fun _ => behOkC3) (fun _ => false) pageC3
        ["x", "al-folio"] initialDB).1.db
      = (publishToPlatforms cfgC3 (fun _ => behOkC3) (fun _ => false) pageC3
        ["al-folio"] initialDB).1.db)
    ∧ mapGet? (publishToPlatforms cfgC3 oFailC3 (fun _ => false) pageC3
        ["x", "al-folio"] initialDB).1.results "al-folio"
      = mapGet? (publishToPlatforms cfgC3 (fun _ => behOkC3) (fun _ => false) pageC3
        ["x", "al-folio"] initialDB).1.results "al-folio" := by
  refine ⟨?_, ?_⟩
  · exact ((C3_per_platform_isolation cfgC3 (fun _ => behOkC3) (fun _ => behOkC3)
      (fun _ => behOkC3) (fun _ => false) pageC3 "x" [] ["al-folio"] initialDB).1
      (Or.inl (by decide))).1
  · exact ((C3_per_platform_isolation cfgC3 (fun _ => behOkC3) oFailC3
      (fun _ => behOkC3) (fun _ => false) pageC3 "x" [] ["al-folio"] initialDB).2
      (by decide) (by decide)
      (fun q hq => by simp [oFailC3, hq])
      ⟨fun r hr => absurd hr (List.not_mem_nil r), List.nodup_nil⟩
      (fun j hj => absurd hj (List.not_mem_nil j))).1 "al-folio" (by decide)

end Mgr
